import Mathlib

/-!
Verification development for the pm-cli AI code-review workflow.

The definitions below are a shallow embedding of the TypeScript sources:

* `src/lib/anthropic.ts` (`reviewWithAI`): the finding normalizer — trim,
  optional markdown code-fence stripping, `JSON.parse`, `Array.isArray`
  check, and forcing `approved: null` on every record.
* `src/commands/review.ts` (`registerReviewCommand`, `interactiveApproval`,
  `printFindings`): the review orchestrator — phases, severity sort,
  approval session, durable record write, delivery hand-off.
* `src/lib/github.ts` (`postReview`): the two-tier delivery engine.

Modelling conventions:

* JS strings are Lean `String` (a structure over `List Char`); `substring` /
  `length` are modelled in scalar characters rather than UTF-16 code units.
* JSON numbers are modelled as integers (`Int`): every numeric field of a
  Finding (`id`, `confidence`, `line`) is an integer; float literals are
  outside the scope of the claims.
* External calls (GitHub CLI, Anthropic API, interactive prompts) are
  oracles supplied by a "world" record; each command is a pure function
  from the world to the list of performed side effects plus an outcome
  (normal return, modelling exit code 0, or `process.exit` with a code).
-/

/-! ## JSON values

Model of the JavaScript values produced by `JSON.parse` and consumed by
`JSON.stringify` inside `reviewWithAI`.  Objects are ordered field lists
(JS objects preserve insertion order). -/

inductive Json where
  | null : Json
  | bool : Bool → Json
  | num : Int → Json
  | str : String → Json
  | arr : List Json → Json
  | obj : List (String × Json) → Json

/-- Characters that cannot appear as plain literals in this file. -/
def bq : Char := Char.ofNat 96

def lcurly : Char := Char.ofNat 123

def rcurly : Char := Char.ofNat 125

/-! ### Serialization (`JSON.stringify`, compact form) -/

def hexDigitChar (n : Nat) : Char :=
  if n < 10 then Char.ofNat (48 + n) else Char.ofNat (87 + n)

/-- Escaping of one character inside a JSON string literal, as
`JSON.stringify` performs it: quote and backslash get a backslash escape,
the common control characters get their short escapes, remaining control
characters get a `\u00XX` escape, and everything else is emitted as is. -/
def escapeChar (c : Char) : List Char :=
  if c == '"' then ['\\', '"']
  else if c == '\\' then ['\\', '\\']
  else if c == '\n' then ['\\', 'n']
  else if c == '\t' then ['\\', 't']
  else if c == '\r' then ['\\', 'r']
  else if c == Char.ofNat 8 then ['\\', 'b']
  else if c == Char.ofNat 12 then ['\\', 'f']
  else if c.toNat < 32 then
    ['\\', 'u', '0', '0', hexDigitChar (c.toNat / 16), hexDigitChar (c.toNat % 16)]
  else [c]

def escapeList : List Char → List Char
  | [] => []
  | c :: cs => escapeChar c ++ escapeList cs

def renderString (s : String) : List Char :=
  '"' :: (escapeList s.data ++ ['"'])

/-- Decimal digits of a natural number, most significant first (fuelled so
that the kernel can evaluate it; `natDigits` supplies ample fuel). -/
def natDigitsAux : Nat → Nat → List Char
  | 0, _ => []
  | fuel + 1, n =>
    if n < 10 then [Char.ofNat (48 + n)]
    else natDigitsAux fuel (n / 10) ++ [Char.ofNat (48 + n % 10)]

def natDigits (n : Nat) : List Char := natDigitsAux (n + 1) n

def renderInt (i : Int) : List Char :=
  if i < 0 then '-' :: natDigits i.natAbs else natDigits i.toNat

mutual

def renderJson : Json → List Char
  | .null => ("null").data
  | .bool true => ("true").data
  | .bool false => ("false").data
  | .num i => renderInt i
  | .str s => renderString s
  | .arr [] => ['[', ']']
  | .arr (x :: xs) => '[' :: (renderJson x ++ renderElemsTail xs ++ [']'])
  | .obj [] => [lcurly, rcurly]
  | .obj (kv :: fs) => lcurly :: (renderMember kv ++ renderMembersTail fs ++ [rcurly])

def renderMember : String × Json → List Char
  | (k, v) => renderString k ++ ':' :: renderJson v

def renderElemsTail : List Json → List Char
  | [] => []
  | x :: xs => ',' :: (renderJson x ++ renderElemsTail xs)

def renderMembersTail : List (String × Json) → List Char
  | [] => []
  | kv :: fs => ',' :: (renderMember kv ++ renderMembersTail fs)

end

/-! ### Size measure used as parser fuel bound -/

mutual

def jsonSize : Json → Nat
  | .null => 1
  | .bool _ => 1
  | .num _ => 1
  | .str _ => 1
  | .arr xs => 1 + elemsSize xs
  | .obj fs => 1 + membersSize fs

def elemsSize : List Json → Nat
  | [] => 0
  | x :: xs => 1 + jsonSize x + elemsSize xs

def membersSize : List (String × Json) → Nat
  | [] => 0
  | kv :: fs => 1 + jsonSize kv.2 + membersSize fs

end

/-! ### Parsing (`JSON.parse`)

A recursive-descent parser for JSON, fuelled to make termination trivial.
It accepts the standard grammar (with numbers restricted to integers, as
explained in the header); `parseJson` requires the whole input, modulo
surrounding whitespace, to be one value — exactly as `JSON.parse` does. -/

def isJsonWs (c : Char) : Bool :=
  c == ' ' || c == '\t' || c == '\n' || c == '\r'

def skipWs (cs : List Char) : List Char := cs.dropWhile isJsonWs

def hexVal (c : Char) : Option Nat :=
  if '0' ≤ c ∧ c ≤ '9' then some (c.toNat - 48)
  else if 'a' ≤ c ∧ c ≤ 'f' then some (c.toNat - 87)
  else if 'A' ≤ c ∧ c ≤ 'F' then some (c.toNat - 55)
  else none

/-- Body of a JSON string literal (after the opening quote): returns the
decoded characters and the input following the closing quote.  Raw control
characters are rejected, escape sequences are decoded.  Fuelled (each step
consumes one unit and at least one input character); `parseStrBody`
supplies ample fuel. -/
def parseStrBodyF : Nat → List Char → Option (List Char × List Char)
  | 0, _ => none
  | fuel + 1, cs =>
    match cs with
    | [] => none
    | c :: rest =>
      if c == '"' then some ([], rest)
      else if c == '\\' then
        match rest with
        | [] => none
        | e :: rest2 =>
          if e == '"' then (parseStrBodyF fuel rest2).map (fun p => ('"' :: p.1, p.2))
          else if e == '\\' then (parseStrBodyF fuel rest2).map (fun p => ('\\' :: p.1, p.2))
          else if e == '/' then (parseStrBodyF fuel rest2).map (fun p => ('/' :: p.1, p.2))
          else if e == 'n' then (parseStrBodyF fuel rest2).map (fun p => ('\n' :: p.1, p.2))
          else if e == 't' then (parseStrBodyF fuel rest2).map (fun p => ('\t' :: p.1, p.2))
          else if e == 'r' then (parseStrBodyF fuel rest2).map (fun p => ('\r' :: p.1, p.2))
          else if e == 'b' then
            (parseStrBodyF fuel rest2).map (fun p => (Char.ofNat 8 :: p.1, p.2))
          else if e == 'f' then
            (parseStrBodyF fuel rest2).map (fun p => (Char.ofNat 12 :: p.1, p.2))
          else if e == 'u' then
            match rest2 with
            | h1 :: h2 :: h3 :: h4 :: rest3 =>
              match hexVal h1, hexVal h2, hexVal h3, hexVal h4 with
              | some d1, some d2, some d3, some d4 =>
                (parseStrBodyF fuel rest3).map
                  (fun p => (Char.ofNat (((d1 * 16 + d2) * 16 + d3) * 16 + d4) :: p.1, p.2))
              | _, _, _, _ => none
            | _ => none
          else none
      else if 32 ≤ c.toNat then (parseStrBodyF fuel rest).map (fun p => (c :: p.1, p.2))
      else none

def parseStrBody (cs : List Char) : Option (List Char × List Char) :=
  parseStrBodyF (cs.length + 1) cs

def digitVal (c : Char) : Nat := c.toNat - 48

def parseNat (cs : List Char) : Option (Nat × List Char) :=
  let ds := cs.takeWhile Char.isDigit
  if ds.isEmpty then none
  else some (ds.foldl (fun a c => a * 10 + digitVal c) 0, cs.dropWhile Char.isDigit)

/-- Consume an expected literal continuation (for `null` / `true` / `false`). -/
def expectChars : List Char → List Char → Option (List Char)
  | [], cs => some cs
  | l :: ls, c :: cs => if c == l then expectChars ls cs else none
  | _ :: _, [] => none

mutual

def parseVal : Nat → List Char → Option (Json × List Char)
  | 0, _ => none
  | n + 1, cs =>
    match skipWs cs with
    | [] => none
    | c :: rest =>
      if c == 'n' then (expectChars ['u', 'l', 'l'] rest).map (fun r => (.null, r))
      else if c == 't' then (expectChars ['r', 'u', 'e'] rest).map (fun r => (.bool true, r))
      else if c == 'f' then (expectChars ['a', 'l', 's', 'e'] rest).map (fun r => (.bool false, r))
      else if c == '"' then (parseStrBody rest).map (fun p => (.str (String.mk p.1), p.2))
      else if c == '[' then
        match skipWs rest with
        | [] => none
        | d :: r2 =>
          if d == ']' then some (.arr [], r2)
          else (parseElems n (d :: r2)).map (fun p => (.arr p.1, p.2))
      else if c == lcurly then
        match skipWs rest with
        | [] => none
        | d :: r2 =>
          if d == rcurly then some (.obj [], r2)
          else (parseMembers n (d :: r2)).map (fun p => (.obj p.1, p.2))
      else if c == '-' then (parseNat rest).map (fun p => (.num (-(p.1 : Int)), p.2))
      else if c.isDigit then (parseNat (c :: rest)).map (fun p => (.num (p.1 : Int), p.2))
      else none

def parseElems : Nat → List Char → Option (List Json × List Char)
  | 0, _ => none
  | n + 1, cs =>
    match parseVal n cs with
    | none => none
    | some (v, r) =>
      match skipWs r with
      | [] => none
      | c :: r2 =>
        if c == ']' then some ([v], r2)
        else if c == ',' then (parseElems n r2).map (fun p => (v :: p.1, p.2))
        else none

def parseMembers : Nat → List Char → Option (List (String × Json) × List Char)
  | 0, _ => none
  | n + 1, cs =>
    match skipWs cs with
    | [] => none
    | c :: rest =>
      if c == '"' then
        match parseStrBody rest with
        | none => none
        | some (k, r) =>
          match skipWs r with
          | [] => none
          | d :: r2 =>
            if d == ':' then
              match parseVal n r2 with
              | none => none
              | some (v, r3) =>
                match skipWs r3 with
                | [] => none
                | e :: r4 =>
                  if e == rcurly then some ([(String.mk k, v)], r4)
                  else if e == ',' then
                    (parseMembers n r4).map (fun p => ((String.mk k, v) :: p.1, p.2))
                  else none
            else none
      else none

end

/-- Model of `JSON.parse`: parse one value, then require only whitespace to remain.
The fuel `cs.length + 1` dominates the size of any value the input can
represent (each unit of `jsonSize` consumes at least one input character). -/
def parseJson (cs : List Char) : Option Json :=
  match parseVal (cs.length + 1) cs with
  | some (v, rest) => if (skipWs rest).isEmpty then some v else none
  | none => none

/-! ## Basic lemmas about characters, strings and whitespace -/

theorem string_mk_data (s : String) : String.mk s.data = s := by
  cases s
  rfl

theorem char_eq_of_toNat_eq (c d : Char) (h : c.toNat = d.toNat) : c = d :=
  Char.ext (UInt32.ext h)

theorem toNat_charOfNat_of_lt (n : Nat) (h : n < 55296) : (Char.ofNat n).toNat = n := by
  have hv : n.isValidChar := Or.inl h
  simp [Char.ofNat, hv, Char.ofNatAux, Char.toNat, UInt32.toNat, BitVec.toNat_ofNatLt]

theorem charOfNat_toNat (c : Char) (h : c.toNat < 55296) : Char.ofNat c.toNat = c :=
  char_eq_of_toNat_eq _ _ (toNat_charOfNat_of_lt _ h)

theorem uint32_le_iff (a b : UInt32) : (a ≤ b) ↔ a.toNat ≤ b.toNat := Iff.rfl

theorem isDigit_iff (c : Char) : c.isDigit = true ↔ 48 ≤ c.toNat ∧ c.toNat ≤ 57 := by
  simp only [Char.isDigit, Bool.and_eq_true, decide_eq_true_eq, ge_iff_le]
  rw [uint32_le_iff, uint32_le_iff]
  simp only [UInt32.toNat_ofNat, Char.toNat]
  norm_num [UInt32.size]

theorem skipWs_cons (c : Char) (cs : List Char) (h : isJsonWs c = false) :
    skipWs (c :: cs) = c :: cs := by
  simp [skipWs, List.dropWhile_cons, h]

theorem hexVal_hexDigitChar (m : Nat) (h : m < 16) : hexVal (hexDigitChar m) = some m := by
  interval_cases m <;> rfl

theorem escapeChar_length_pos (c : Char) : 1 ≤ (escapeChar c).length := by
  unfold escapeChar
  split_ifs <;> simp

theorem escapeList_length_ge (cs : List Char) : cs.length ≤ (escapeList cs).length := by
  induction cs with
  | nil => simp [escapeList]
  | cons c cs ih =>
    have := escapeChar_length_pos c
    simp only [escapeList, List.length_append, List.length_cons]
    omega

/-! ## Round trip for JSON string literals -/

theorem parseStrBodyF_escape (cs : List Char) : ∀ fuel rest, cs.length + 1 ≤ fuel →
    parseStrBodyF fuel (escapeList cs ++ '"' :: rest) = some (cs, rest) := by
  induction cs with
  | nil =>
    intro fuel rest h
    cases fuel with
    | zero => simp at h
    | succ f => rfl
  | cons c cs ih =>
    intro fuel rest h
    cases fuel with
    | zero => simp at h
    | succ f =>
      have hf : cs.length + 1 ≤ f := by
        simp only [List.length_cons] at h
        omega
      have ihf := ih f rest hf
      rw [show escapeList (c :: cs) = escapeChar c ++ escapeList cs from rfl, List.append_assoc]
      by_cases h1 : c = '"'
      · subst h1
        show parseStrBodyF (f + 1) ('\\' :: '"' :: (escapeList cs ++ '"' :: rest)) = _
        rw [show parseStrBodyF (f + 1) ('\\' :: '"' :: (escapeList cs ++ '"' :: rest)) =
            (parseStrBodyF f (escapeList cs ++ '"' :: rest)).map
              (fun p => ('"' :: p.1, p.2)) from rfl, ihf]
        rfl
      by_cases h2 : c = '\\'
      · subst h2
        show parseStrBodyF (f + 1) ('\\' :: '\\' :: (escapeList cs ++ '"' :: rest)) = _
        rw [show parseStrBodyF (f + 1) ('\\' :: '\\' :: (escapeList cs ++ '"' :: rest)) =
            (parseStrBodyF f (escapeList cs ++ '"' :: rest)).map
              (fun p => ('\\' :: p.1, p.2)) from rfl, ihf]
        rfl
      by_cases h3 : c = '\n'
      · subst h3
        show parseStrBodyF (f + 1) ('\\' :: 'n' :: (escapeList cs ++ '"' :: rest)) = _
        rw [show parseStrBodyF (f + 1) ('\\' :: 'n' :: (escapeList cs ++ '"' :: rest)) =
            (parseStrBodyF f (escapeList cs ++ '"' :: rest)).map
              (fun p => ('\n' :: p.1, p.2)) from rfl, ihf]
        rfl
      by_cases h4 : c = '\t'
      · subst h4
        show parseStrBodyF (f + 1) ('\\' :: 't' :: (escapeList cs ++ '"' :: rest)) = _
        rw [show parseStrBodyF (f + 1) ('\\' :: 't' :: (escapeList cs ++ '"' :: rest)) =
            (parseStrBodyF f (escapeList cs ++ '"' :: rest)).map
              (fun p => ('\t' :: p.1, p.2)) from rfl, ihf]
        rfl
      by_cases h5 : c = '\r'
      · subst h5
        show parseStrBodyF (f + 1) ('\\' :: 'r' :: (escapeList cs ++ '"' :: rest)) = _
        rw [show parseStrBodyF (f + 1) ('\\' :: 'r' :: (escapeList cs ++ '"' :: rest)) =
            (parseStrBodyF f (escapeList cs ++ '"' :: rest)).map
              (fun p => ('\r' :: p.1, p.2)) from rfl, ihf]
        rfl
      by_cases h6 : c = Char.ofNat 8
      · subst h6
        show parseStrBodyF (f + 1) ('\\' :: 'b' :: (escapeList cs ++ '"' :: rest)) = _
        rw [show parseStrBodyF (f + 1) ('\\' :: 'b' :: (escapeList cs ++ '"' :: rest)) =
            (parseStrBodyF f (escapeList cs ++ '"' :: rest)).map
              (fun p => (Char.ofNat 8 :: p.1, p.2)) from rfl, ihf]
        rfl
      by_cases h7 : c = Char.ofNat 12
      · subst h7
        show parseStrBodyF (f + 1) ('\\' :: 'f' :: (escapeList cs ++ '"' :: rest)) = _
        rw [show parseStrBodyF (f + 1) ('\\' :: 'f' :: (escapeList cs ++ '"' :: rest)) =
            (parseStrBodyF f (escapeList cs ++ '"' :: rest)).map
              (fun p => (Char.ofNat 12 :: p.1, p.2)) from rfl, ihf]
        rfl
      by_cases h8 : c.toNat < 32
      · have hesc : escapeChar c =
            ['\\', 'u', '0', '0', hexDigitChar (c.toNat / 16), hexDigitChar (c.toNat % 16)] := by
          simp [escapeChar, h1, h2, h3, h4, h5, h6, h7, h8]
        rw [hesc]
        have hx1 : hexVal (hexDigitChar (c.toNat / 16)) = some (c.toNat / 16) :=
          hexVal_hexDigitChar _ (by omega)
        have hx2 : hexVal (hexDigitChar (c.toNat % 16)) = some (c.toNat % 16) :=
          hexVal_hexDigitChar _ (by omega)
        show parseStrBodyF (f + 1) ('\\' :: 'u' :: '0' :: '0' :: hexDigitChar (c.toNat / 16)
            :: hexDigitChar (c.toNat % 16) :: (escapeList cs ++ '"' :: rest)) = _
        rw [show parseStrBodyF (f + 1) ('\\' :: 'u' :: '0' :: '0' :: hexDigitChar (c.toNat / 16)
              :: hexDigitChar (c.toNat % 16) :: (escapeList cs ++ '"' :: rest)) =
            (match hexVal '0', hexVal '0', hexVal (hexDigitChar (c.toNat / 16)),
                hexVal (hexDigitChar (c.toNat % 16)) with
              | some d1, some d2, some d3, some d4 =>
                (parseStrBodyF f (escapeList cs ++ '"' :: rest)).map
                  (fun p => (Char.ofNat (((d1 * 16 + d2) * 16 + d3) * 16 + d4) :: p.1, p.2))
              | _, _, _, _ => none) from rfl, hx1, hx2]
        show (parseStrBodyF f (escapeList cs ++ '"' :: rest)).map
            (fun p => (Char.ofNat (((0 * 16 + 0) * 16 + c.toNat / 16) * 16 + c.toNat % 16)
              :: p.1, p.2)) = _
        rw [ihf]
        have hc : Char.ofNat (((0 * 16 + 0) * 16 + c.toNat / 16) * 16 + c.toNat % 16) = c := by
          have he : ((0 * 16 + 0) * 16 + c.toNat / 16) * 16 + c.toNat % 16 = c.toNat := by
            omega
          rw [he]
          exact charOfNat_toNat c (by omega)
        rw [Option.map_some']
        rw [hc]
      · have hesc : escapeChar c = [c] := by
          simp [escapeChar, h1, h2, h3, h4, h5, h6, h7, h8]
        rw [hesc]
        simp [parseStrBodyF, h1, h2, Nat.le_of_not_lt h8, ihf]

theorem parseStrBody_escape (cs rest : List Char) :
    parseStrBody (escapeList cs ++ '"' :: rest) = some (cs, rest) := by
  have hlen := escapeList_length_ge cs
  apply parseStrBodyF_escape
  simp only [List.length_append, List.length_cons]
  omega

/-! ## Round trip for JSON numbers -/

def headIsDigit : List Char → Bool
  | [] => false
  | c :: _ => c.isDigit

theorem beq_false_of_toNat_ne (c d : Char) (h : c.toNat ≠ d.toNat) : (c == d) = false := by
  rw [beq_eq_false_iff_ne]
  intro hc
  exact h (by rw [hc])

/-- A decimal digit character is not whitespace and not any of the JSON
structural characters the parsers compare against. -/
theorem digit_char_facts (c : Char) (h : c.isDigit = true) :
    isJsonWs c = false ∧ (c == 'n') = false ∧ (c == 't') = false ∧ (c == 'f') = false ∧
    (c == '"') = false ∧ (c == '[') = false ∧ (c == lcurly) = false ∧ (c == '-') = false ∧
    (c == ']') = false ∧ (c == rcurly) = false := by
  rw [isDigit_iff] at h
  have hne : ∀ d : Char, 57 < d.toNat ∨ d.toNat < 48 → (c == d) = false := by
    intro d hd
    apply beq_false_of_toNat_ne
    omega
  refine ⟨?_, ?_, ?_, ?_, ?_, ?_, ?_, ?_, ?_, ?_⟩
  · have h1 : (c == ' ') = false := hne _ (by right; decide)
    have h2 : (c == '\t') = false := hne _ (by right; decide)
    have h3 : (c == '\n') = false := hne _ (by right; decide)
    have h4 : (c == '\r') = false := hne _ (by right; decide)
    simp [isJsonWs, h1, h2, h3, h4]
  · exact hne _ (by left; decide)
  · exact hne _ (by left; decide)
  · exact hne _ (by left; decide)
  · exact hne _ (by right; decide)
  · exact hne _ (by left; decide)
  · exact hne _ (by left; decide)
  · exact hne _ (by right; decide)
  · exact hne _ (by left; decide)
  · exact hne _ (by left; decide)

theorem natDigitsAux_all_digits :
    ∀ fuel n, n < fuel → ∀ c ∈ natDigitsAux fuel n, c.isDigit = true := by
  intro fuel
  induction fuel with
  | zero =>
    intro n h
    omega
  | succ f ihf =>
    intro n h c hc
    by_cases h10 : n < 10
    · simp only [natDigitsAux, if_pos h10, List.mem_singleton] at hc
      subst hc
      rw [isDigit_iff, toNat_charOfNat_of_lt _ (by omega)]
      omega
    · simp only [natDigitsAux, if_neg h10, List.mem_append, List.mem_singleton] at hc
      rcases hc with hc | hc
      · exact ihf (n / 10) (by omega) c hc
      · subst hc
        rw [isDigit_iff, toNat_charOfNat_of_lt _ (by omega)]
        omega

theorem natDigits_all_digits (n : Nat) : ∀ c ∈ natDigits n, c.isDigit = true :=
  natDigitsAux_all_digits (n + 1) n (by omega)

theorem natDigitsAux_head :
    ∀ fuel n, n < fuel → ∃ c cs, natDigitsAux fuel n = c :: cs ∧ c.isDigit = true := by
  intro fuel
  induction fuel with
  | zero =>
    intro n h
    omega
  | succ f ihf =>
    intro n h
    by_cases h10 : n < 10
    · refine ⟨Char.ofNat (48 + n), [], by simp [natDigitsAux, if_pos h10], ?_⟩
      rw [isDigit_iff, toNat_charOfNat_of_lt _ (by omega)]
      omega
    · obtain ⟨c, cs, heq, hdig⟩ := ihf (n / 10) (by omega)
      refine ⟨c, cs ++ [Char.ofNat (48 + n % 10)], ?_, hdig⟩
      simp [natDigitsAux, if_neg h10, heq]

theorem natDigits_head (n : Nat) : ∃ c cs, natDigits n = c :: cs ∧ c.isDigit = true :=
  natDigitsAux_head (n + 1) n (by omega)

theorem takeWhile_all_append (p : Char → Bool) (xs ys : List Char)
    (hx : ∀ x ∈ xs, p x = true) :
    (xs ++ ys).takeWhile p = xs ++ ys.takeWhile p := by
  induction xs with
  | nil => simp
  | cons a xs ih =>
    have ha : p a = true := hx a (by simp)
    simp only [List.cons_append, List.takeWhile_cons, ha, if_pos]
    rw [ih (fun x hxm => hx x (by simp [hxm]))]

theorem dropWhile_all_append (p : Char → Bool) (xs ys : List Char)
    (hx : ∀ x ∈ xs, p x = true) :
    (xs ++ ys).dropWhile p = ys.dropWhile p := by
  induction xs with
  | nil => simp
  | cons a xs ih =>
    have ha : p a = true := hx a (by simp)
    simp only [List.cons_append, List.dropWhile_cons, ha, if_pos]
    exact ih (fun x hxm => hx x (by simp [hxm]))

theorem natDigitsAux_foldl :
    ∀ fuel n, n < fuel → ∀ a : Nat,
      (natDigitsAux fuel n).foldl (fun a c => a * 10 + digitVal c) a =
        a * 10 ^ (natDigitsAux fuel n).length + n := by
  intro fuel
  induction fuel with
  | zero =>
    intro n h
    omega
  | succ f ihf =>
    intro n h a
    by_cases h10 : n < 10
    · simp only [natDigitsAux, if_pos h10, List.foldl_cons, List.foldl_nil,
        List.length_singleton]
      have : digitVal (Char.ofNat (48 + n)) = n := by
        simp [digitVal, toNat_charOfNat_of_lt _ (show 48 + n < 55296 by omega)]
      rw [this]
      ring
    · simp only [natDigitsAux, if_neg h10, List.foldl_append, List.foldl_cons,
        List.foldl_nil, List.length_append, List.length_singleton]
      rw [ihf (n / 10) (by omega) a]
      have : digitVal (Char.ofNat (48 + n % 10)) = n % 10 := by
        simp [digitVal, toNat_charOfNat_of_lt _ (show 48 + n % 10 < 55296 by omega)]
      rw [this]
      have hmod := Nat.div_add_mod n 10
      rw [pow_succ]
      ring_nf
      omega

theorem parseNat_natDigits (n : Nat) (rest : List Char) (h : headIsDigit rest = false) :
    parseNat (natDigits n ++ rest) = some (n, rest) := by
  have hall := natDigits_all_digits n
  have htake : (natDigits n ++ rest).takeWhile Char.isDigit = natDigits n := by
    rw [takeWhile_all_append _ _ _ hall]
    cases rest with
    | nil => simp
    | cons r t =>
      simp only [headIsDigit] at h
      simp [List.takeWhile_cons, h]
  have hdrop : (natDigits n ++ rest).dropWhile Char.isDigit = rest := by
    rw [dropWhile_all_append _ _ _ hall]
    cases rest with
    | nil => simp
    | cons r t =>
      simp only [headIsDigit] at h
      simp [List.dropWhile_cons, h]
  obtain ⟨c, cs, heq, _⟩ := natDigits_head n
  have hne : (natDigits n).isEmpty = false := by
    rw [heq]
    rfl
  simp only [parseNat, htake, hdrop]
  rw [if_neg (by simp [hne])]
  have := natDigitsAux_foldl (n + 1) n (by omega) 0
  simp only [natDigits] at *
  rw [this]
  simp

/-! ## Unfolding equations for the parsers (definitional) -/

theorem parseVal_null (n : Nat) (t : List Char) :
    parseVal (n + 1) ('n' :: 'u' :: 'l' :: 'l' :: t) = some (Json.null, t) := rfl

theorem parseVal_true (n : Nat) (t : List Char) :
    parseVal (n + 1) ('t' :: 'r' :: 'u' :: 'e' :: t) = some (Json.bool true, t) := rfl

theorem parseVal_false (n : Nat) (t : List Char) :
    parseVal (n + 1) ('f' :: 'a' :: 'l' :: 's' :: 'e' :: t) = some (Json.bool false, t) := rfl

theorem parseVal_quote (n : Nat) (t : List Char) :
    parseVal (n + 1) ('"' :: t) =
      (parseStrBody t).map (fun p => (Json.str (String.mk p.1), p.2)) := rfl

theorem parseVal_minus (n : Nat) (t : List Char) :
    parseVal (n + 1) ('-' :: t) =
      (parseNat t).map (fun p => (Json.num (-(p.1 : Int)), p.2)) := rfl

theorem parseVal_lbracket (n : Nat) (t : List Char) :
    parseVal (n + 1) ('[' :: t) =
      (match skipWs t with
        | [] => none
        | d :: r2 =>
          if d == ']' then some (Json.arr [], r2)
          else (parseElems n (d :: r2)).map (fun p => (Json.arr p.1, p.2))) := rfl

theorem parseVal_lcurly (n : Nat) (t : List Char) :
    parseVal (n + 1) (lcurly :: t) =
      (match skipWs t with
        | [] => none
        | d :: r2 =>
          if d == rcurly then some (Json.obj [], r2)
          else (parseMembers n (d :: r2)).map (fun p => (Json.obj p.1, p.2))) := rfl

theorem parseElems_succ (n : Nat) (cs : List Char) :
    parseElems (n + 1) cs =
      (match parseVal n cs with
        | none => none
        | some (v, r) =>
          match skipWs r with
          | [] => none
          | c :: r2 =>
            if c == ']' then some ([v], r2)
            else if c == ',' then (parseElems n r2).map (fun p => (v :: p.1, p.2))
            else none) := rfl

theorem parseMembers_quote (n : Nat) (t : List Char) :
    parseMembers (n + 1) ('"' :: t) =
      (match parseStrBody t with
        | none => none
        | some (k, r) =>
          match skipWs r with
          | [] => none
          | d :: r2 =>
            if d == ':' then
              match parseVal n r2 with
              | none => none
              | some (v, r3) =>
                match skipWs r3 with
                | [] => none
                | e :: r4 =>
                  if e == rcurly then some ([(String.mk k, v)], r4)
                  else if e == ',' then
                    (parseMembers n r4).map (fun p => ((String.mk k, v) :: p.1, p.2))
                  else none
            else none) := rfl

theorem char_digit_cases (c : Char) (hd : c.isDigit = true) :
    c = '0' ∨ c = '1' ∨ c = '2' ∨ c = '3' ∨ c = '4' ∨
    c = '5' ∨ c = '6' ∨ c = '7' ∨ c = '8' ∨ c = '9' := by
  have h1 := (isDigit_iff c).mp hd
  have h2 : c.toNat = 48 ∨ c.toNat = 49 ∨ c.toNat = 50 ∨ c.toNat = 51 ∨ c.toNat = 52 ∨
      c.toNat = 53 ∨ c.toNat = 54 ∨ c.toNat = 55 ∨ c.toNat = 56 ∨ c.toNat = 57 := by
    omega
  rcases h2 with h | h | h | h | h | h | h | h | h | h
  · exact Or.inl (char_eq_of_toNat_eq _ _ (by rw [h]; rfl))
  · exact Or.inr (Or.inl (char_eq_of_toNat_eq _ _ (by rw [h]; rfl)))
  · exact Or.inr (Or.inr (Or.inl (char_eq_of_toNat_eq _ _ (by rw [h]; rfl))))
  · exact Or.inr (Or.inr (Or.inr (Or.inl (char_eq_of_toNat_eq _ _ (by rw [h]; rfl)))))
  · exact Or.inr (Or.inr (Or.inr (Or.inr (Or.inl (char_eq_of_toNat_eq _ _ (by rw [h]; rfl))))))
  · exact Or.inr (Or.inr (Or.inr (Or.inr (Or.inr (Or.inl
      (char_eq_of_toNat_eq _ _ (by rw [h]; rfl)))))))
  · exact Or.inr (Or.inr (Or.inr (Or.inr (Or.inr (Or.inr (Or.inl
      (char_eq_of_toNat_eq _ _ (by rw [h]; rfl))))))))
  · exact Or.inr (Or.inr (Or.inr (Or.inr (Or.inr (Or.inr (Or.inr (Or.inl
      (char_eq_of_toNat_eq _ _ (by rw [h]; rfl)))))))))
  · exact Or.inr (Or.inr (Or.inr (Or.inr (Or.inr (Or.inr (Or.inr (Or.inr (Or.inl
      (char_eq_of_toNat_eq _ _ (by rw [h]; rfl))))))))))
  · exact Or.inr (Or.inr (Or.inr (Or.inr (Or.inr (Or.inr (Or.inr (Or.inr (Or.inr
      (char_eq_of_toNat_eq _ _ (by rw [h]; rfl))))))))))

theorem parseVal_digit (n : Nat) (c : Char) (t : List Char) (hd : c.isDigit = true) :
    parseVal (n + 1) (c :: t) =
      (parseNat (c :: t)).map (fun p => (Json.num (p.1 : Int), p.2)) := by
  rcases char_digit_cases c hd with rfl | rfl | rfl | rfl | rfl | rfl | rfl | rfl | rfl | rfl <;>
    rfl

/-! ## Head shape of rendered values -/

theorem jsonSize_pos (v : Json) : 1 ≤ jsonSize v := by
  cases v <;> simp [jsonSize]

theorem renderJson_head (v : Json) :
    ∃ c cs, renderJson v = c :: cs ∧ isJsonWs c = false ∧ (c == ']') = false := by
  cases v with
  | null => exact ⟨'n', ['u', 'l', 'l'], by simp [renderJson], by decide, by decide⟩
  | bool b =>
    cases b
    · exact ⟨'f', ['a', 'l', 's', 'e'], by simp [renderJson], by decide, by decide⟩
    · exact ⟨'t', ['r', 'u', 'e'], by simp [renderJson], by decide, by decide⟩
  | num i =>
    by_cases hi : i < 0
    · exact ⟨'-', natDigits i.natAbs, by simp [renderJson, renderInt, hi], by decide, by decide⟩
    · obtain ⟨c, cs, heq, hdig⟩ := natDigits_head i.toNat
      obtain ⟨hws, _, _, _, _, _, _, _, hbr, _⟩ := digit_char_facts c hdig
      exact ⟨c, cs, by simp [renderJson, renderInt, hi, heq], hws, hbr⟩
  | str s =>
    exact ⟨'"', escapeList s.data ++ ['"'], by simp [renderJson, renderString], by decide,
      by decide⟩
  | arr xs =>
    cases xs with
    | nil => exact ⟨'[', [']'], by simp [renderJson], by decide, by decide⟩
    | cons x l =>
      exact ⟨'[', renderJson x ++ renderElemsTail l ++ [']'], by simp [renderJson], by decide,
        by decide⟩
  | obj fs =>
    cases fs with
    | nil => exact ⟨lcurly, [rcurly], by simp [renderJson], by decide, by decide⟩
    | cons kv l =>
      exact ⟨lcurly, renderMember kv ++ renderMembersTail l ++ [rcurly], by simp [renderJson],
        by decide, by decide⟩

theorem renderMember_head (kv : String × Json) :
    renderMember kv = '"' :: ((escapeList kv.1.data ++ ['"']) ++ ':' :: renderJson kv.2) := by
  obtain ⟨k, v⟩ := kv
  simp [renderMember, renderString]

theorem headIsDigit_elemsTail (xs : List Json) (rest : List Char) :
    headIsDigit (renderElemsTail xs ++ ']' :: rest) = false := by
  cases xs with
  | nil =>
    rw [show renderElemsTail [] = [] from by simp [renderElemsTail], List.nil_append]
    rfl
  | cons y ys =>
    rw [show renderElemsTail (y :: ys) = ',' :: (renderJson y ++ renderElemsTail ys)
        from by simp [renderElemsTail], List.cons_append]
    rfl

theorem headIsDigit_membersTail (fs : List (String × Json)) (rest : List Char) :
    headIsDigit (renderMembersTail fs ++ rcurly :: rest) = false := by
  cases fs with
  | nil =>
    rw [show renderMembersTail [] = [] from by simp [renderMembersTail], List.nil_append]
    rfl
  | cons kv l =>
    rw [show renderMembersTail (kv :: l) = ',' :: (renderMember kv ++ renderMembersTail l)
        from by simp [renderMembersTail], List.cons_append]
    rfl

/-! ## The parse/render round trip -/

theorem parse_render_rt (n : Nat) :
    (∀ v rest, jsonSize v < n → headIsDigit rest = false →
      parseVal n (renderJson v ++ rest) = some (v, rest)) ∧
    (∀ x xs rest, jsonSize x + elemsSize xs + 2 ≤ n →
      parseElems n (renderJson x ++ (renderElemsTail xs ++ ']' :: rest)) =
        some (x :: xs, rest)) ∧
    (∀ kv fs rest, jsonSize kv.2 + membersSize fs + 2 ≤ n →
      parseMembers n (renderMember kv ++ (renderMembersTail fs ++ rcurly :: rest)) =
        some (kv :: fs, rest)) := by
  induction n with
  | zero =>
    refine ⟨fun v rest h _ => absurd h (by omega), fun x xs rest h => absurd h (by omega),
      fun kv fs rest h => absurd h (by omega)⟩
  | succ n ih =>
    obtain ⟨ihP, ihQ, ihR⟩ := ih
    refine ⟨?_, ?_, ?_⟩
    · intro v rest hsz hrd
      cases v with
      | null =>
        rw [show renderJson .null = 'n' :: 'u' :: 'l' :: 'l' :: [] from by
          simp only [renderJson]]
        exact parseVal_null n rest
      | bool b =>
        cases b
        · rw [show renderJson (.bool false) = 'f' :: 'a' :: 'l' :: 's' :: 'e' :: [] from by
            simp only [renderJson]]
          exact parseVal_false n rest
        · rw [show renderJson (.bool true) = 't' :: 'r' :: 'u' :: 'e' :: [] from by
            simp only [renderJson]]
          exact parseVal_true n rest
      | num i =>
        rw [show renderJson (.num i) = renderInt i from by simp [renderJson]]
        by_cases hi : i < 0
        · rw [show renderInt i = '-' :: natDigits i.natAbs from by simp [renderInt, hi],
            List.cons_append, parseVal_minus, parseNat_natDigits _ _ hrd]
          simp only [Option.map_some']
          have hiv : -((i.natAbs : Int)) = i := by omega
          rw [hiv]
        · obtain ⟨c, cs, heq, hdig⟩ := natDigits_head i.toNat
          rw [show renderInt i = natDigits i.toNat from by simp [renderInt, hi], heq,
            List.cons_append, parseVal_digit n c _ hdig, ← List.cons_append, ← heq,
            parseNat_natDigits _ _ hrd]
          simp only [Option.map_some']
          have hiv : ((i.toNat : Int)) = i := by omega
          rw [hiv]
      | str s =>
        rw [show renderJson (.str s) = '"' :: (escapeList s.data ++ ['"']) from by
          simp [renderJson, renderString]]
        rw [List.cons_append, List.append_assoc, List.singleton_append, parseVal_quote,
          parseStrBody_escape]
        simp only [Option.map_some', string_mk_data]
      | arr l =>
        cases l with
        | nil =>
          rw [show renderJson (.arr []) = ['[', ']'] from by simp [renderJson]]
          rfl
        | cons x xs =>
          have harith : jsonSize x + elemsSize xs + 2 ≤ n := by
            simp only [jsonSize, elemsSize] at hsz
            omega
          have hQ := ihQ x xs rest harith
          rw [show renderJson (.arr (x :: xs)) =
              '[' :: (renderJson x ++ renderElemsTail xs ++ [']']) from by simp [renderJson]]
          rw [List.cons_append, parseVal_lbracket, List.append_assoc, List.append_assoc,
            List.singleton_append]
          obtain ⟨c, cs, heq, hws, hbr⟩ := renderJson_head x
          rw [heq, List.cons_append, skipWs_cons _ _ hws]
          show (if c == ']' then some (Json.arr [], cs ++ (renderElemsTail xs ++ ']' :: rest))
              else (parseElems n (c :: (cs ++ (renderElemsTail xs ++ ']' :: rest)))).map
                (fun p => (Json.arr p.1, p.2))) = _
          rw [if_neg (by simp [hbr]), ← List.cons_append, ← heq, hQ]
          rfl
      | obj l =>
        cases l with
        | nil =>
          rw [show renderJson (.obj []) = [lcurly, rcurly] from by simp [renderJson]]
          rfl
        | cons kv fs =>
          have harith : jsonSize kv.2 + membersSize fs + 2 ≤ n := by
            simp only [jsonSize, membersSize] at hsz
            omega
          have hR := ihR kv fs rest harith
          rw [show renderJson (.obj (kv :: fs)) =
              lcurly :: (renderMember kv ++ renderMembersTail fs ++ [rcurly]) from by
            simp [renderJson]]
          rw [List.cons_append, parseVal_lcurly, List.append_assoc, List.append_assoc,
            List.singleton_append]
          rw [renderMember_head kv, List.cons_append,
            skipWs_cons _ _ (by decide)]
          show (if '"' == rcurly then
              some (Json.obj [], ((escapeList kv.1.data ++ ['"']) ++ ':' :: renderJson kv.2) ++
                (renderMembersTail fs ++ rcurly :: rest))
            else (parseMembers n ('"' :: (((escapeList kv.1.data ++ ['"']) ++
                ':' :: renderJson kv.2) ++ (renderMembersTail fs ++ rcurly :: rest)))).map
              (fun p => (Json.obj p.1, p.2))) = _
          rw [if_neg (by decide), ← List.cons_append, ← renderMember_head kv, hR]
          rfl
    · intro x xs rest harith
      have hP := ihP x (renderElemsTail xs ++ ']' :: rest)
        (by have := jsonSize_pos x; omega) (headIsDigit_elemsTail xs rest)
      rw [parseElems_succ, hP]
      show (match skipWs (renderElemsTail xs ++ ']' :: rest) with
        | [] => none
        | c :: r2 =>
          if c == ']' then some ([x], r2)
          else if c == ',' then
            (parseElems n r2).map (fun p : List Json × List Char => (x :: p.1, p.2))
          else none) = _
      cases xs with
      | nil =>
        rw [show renderElemsTail [] = [] from by simp [renderElemsTail], List.nil_append,
          skipWs_cons _ _ (by decide)]
        rfl
      | cons y ys =>
        have harith2 : jsonSize y + elemsSize ys + 2 ≤ n := by
          have := jsonSize_pos x
          simp only [elemsSize] at harith
          omega
        rw [show renderElemsTail (y :: ys) = ',' :: (renderJson y ++ renderElemsTail ys)
            from by simp [renderElemsTail], List.cons_append, skipWs_cons _ _ (by decide)]
        show (parseElems n ((renderJson y ++ renderElemsTail ys) ++ ']' :: rest)).map
            (fun p : List Json × List Char => (x :: p.1, p.2)) = _
        rw [List.append_assoc, ihQ y ys rest harith2]
        rfl
    · intro kv fs rest harith
      obtain ⟨k, v⟩ := kv
      have harith' : jsonSize v + membersSize fs + 2 ≤ n + 1 := harith
      have hP := ihP v (renderMembersTail fs ++ rcurly :: rest)
        (by omega) (headIsDigit_membersTail fs rest)
      rw [renderMember_head (k, v), List.cons_append, parseMembers_quote]
      simp only [List.append_assoc, List.singleton_append, List.cons_append]
      rw [parseStrBody_escape]
      show (match skipWs (':' :: (renderJson v ++ (renderMembersTail fs ++ rcurly :: rest))) with
        | [] => none
        | d :: r2 =>
          if d == ':' then
            match parseVal n r2 with
            | none => none
            | some (w, r3) =>
              match skipWs r3 with
              | [] => none
              | e :: r4 =>
                if e == rcurly then some ([(String.mk k.data, w)], r4)
                else if e == ',' then
                  (parseMembers n r4).map
                    (fun p : List (String × Json) × List Char =>
                      ((String.mk k.data, w) :: p.1, p.2))
                else none
          else none) = _
      rw [skipWs_cons _ _ (by decide)]
      show (match parseVal n (renderJson v ++ (renderMembersTail fs ++ rcurly :: rest)) with
        | none => none
        | some (w, r3) =>
          match skipWs r3 with
          | [] => none
          | e :: r4 =>
            if e == rcurly then some ([(String.mk k.data, w)], r4)
            else if e == ',' then
              (parseMembers n r4).map
                (fun p : List (String × Json) × List Char =>
                  ((String.mk k.data, w) :: p.1, p.2))
            else none) = _
      rw [hP]
      show (match skipWs (renderMembersTail fs ++ rcurly :: rest) with
        | [] => none
        | e :: r4 =>
          if e == rcurly then some ([(String.mk k.data, v)], r4)
          else if e == ',' then
            (parseMembers n r4).map
              (fun p : List (String × Json) × List Char =>
                ((String.mk k.data, v) :: p.1, p.2))
          else none) = _
      cases fs with
      | nil =>
        rw [show renderMembersTail [] = [] from by simp [renderMembersTail], List.nil_append,
          skipWs_cons _ _ (by decide)]
        show (if rcurly == rcurly then some ([(String.mk k.data, v)], rest)
          else if rcurly == ',' then
            (parseMembers n rest).map
              (fun p : List (String × Json) × List Char =>
                ((String.mk k.data, v) :: p.1, p.2))
          else none) = _
        rw [if_pos (by decide), string_mk_data]
      | cons kv' fs' =>
        have harith2 : jsonSize kv'.2 + membersSize fs' + 2 ≤ n := by
          have := jsonSize_pos v
          simp only [membersSize] at harith'
          omega
        rw [show renderMembersTail (kv' :: fs') = ',' :: (renderMember kv' ++
            renderMembersTail fs') from by simp [renderMembersTail], List.cons_append,
          skipWs_cons _ _ (by decide)]
        show (parseMembers n ((renderMember kv' ++ renderMembersTail fs') ++ rcurly :: rest)).map
            (fun p : List (String × Json) × List Char =>
              ((String.mk k.data, v) :: p.1, p.2)) = _
        rw [List.append_assoc, ihR kv' fs' rest harith2, string_mk_data]
        rfl

mutual

theorem jsonSize_le_renderLength (v : Json) : jsonSize v ≤ (renderJson v).length := by
  cases v with
  | null => simp [renderJson, jsonSize]
  | bool b => cases b <;> simp [renderJson, jsonSize]
  | num i =>
    simp only [renderJson, jsonSize]
    by_cases hi : i < 0
    · simp [renderInt, hi]
    · obtain ⟨c, cs, heq, _⟩ := natDigits_head i.toNat
      simp [renderInt, hi, heq]
  | str s => simp [renderJson, renderString, jsonSize]
  | arr l =>
    cases l with
    | nil => simp [renderJson, jsonSize, elemsSize]
    | cons x xs =>
      have h1 := jsonSize_le_renderLength x
      have h2 := elemsSize_le_renderTail xs
      simp only [renderJson, jsonSize, elemsSize, List.length_cons, List.length_append,
        List.length_singleton]
      omega
  | obj l =>
    cases l with
    | nil => simp [renderJson, jsonSize, membersSize]
    | cons kv fs =>
      have h1 := jsonSize_le_renderLength kv.2
      have h2 := membersSize_le_renderTail fs
      simp only [renderJson, jsonSize, membersSize, renderMember_head, List.length_cons,
        List.length_append, List.length_singleton]
      omega

theorem elemsSize_le_renderTail (xs : List Json) :
    elemsSize xs ≤ (renderElemsTail xs).length := by
  cases xs with
  | nil => simp [renderElemsTail, elemsSize]
  | cons x l =>
    have h1 := jsonSize_le_renderLength x
    have h2 := elemsSize_le_renderTail l
    simp only [renderElemsTail, elemsSize, List.length_cons, List.length_append]
    omega

theorem membersSize_le_renderTail (fs : List (String × Json)) :
    membersSize fs ≤ (renderMembersTail fs).length := by
  cases fs with
  | nil => simp [renderMembersTail, membersSize]
  | cons kv l =>
    have h1 := jsonSize_le_renderLength kv.2
    have h2 := membersSize_le_renderTail l
    simp only [renderMembersTail, membersSize, renderMember_head, List.length_cons,
      List.length_append]
    omega

end

/-- Theorem: `JSON.parse` recovers any value from its `JSON.stringify` serialization. -/
theorem parseJson_render (v : Json) : parseJson (renderJson v) = some v := by
  have hsz : jsonSize v < (renderJson v).length + 1 :=
    Nat.lt_succ_of_le (jsonSize_le_renderLength v)
  have hp := (parse_render_rt ((renderJson v).length + 1)).1 v [] hsz (by rfl)
  rw [List.append_nil] at hp
  unfold parseJson
  rw [hp]
  rfl

/-! ## The finding normalizer

Embedding of the response handling in `reviewWithAI`
(`src/lib/anthropic.ts`, lines 38–58): trim the text block, strip an
optional surrounding markdown code fence, `JSON.parse` it, reject
non-arrays, and force `approved: null` onto every record. -/

/-- JS `String.prototype.trim` whitespace (the common ASCII whitespace
characters; the full JS set also has exotic Unicode spaces, which never
occur in the inputs the claims quantify over). -/
def isJsTrimWs (c : Char) : Bool :=
  c == ' ' || c == '\t' || c == '\n' || c == '\r' || c == Char.ofNat 11 || c == Char.ofNat 12

def jsTrimList (cs : List Char) : List Char :=
  ((cs.dropWhile isJsTrimWs).reverse.dropWhile isJsTrimWs).reverse

def jsTrim (s : String) : String := String.mk (jsTrimList s.data)

/-- Model of `jsonStr.startsWith('```')`. -/
def startsWithFence (cs : List Char) : Bool :=
  match cs with
  | c1 :: c2 :: c3 :: _ => c1 == bq && c2 == bq && c3 == bq
  | _ => false

/-- Model of `jsonStr.replace(/^```(?:json)?\n?/, '')`: if the text starts with
three backticks, drop them, then greedily drop a following `json`, then
drop one following newline. -/
def stripLeadFence (cs : List Char) : List Char :=
  match cs with
  | c1 :: c2 :: c3 :: rest =>
    if c1 == bq && c2 == bq && c3 == bq then
      let rest2 :=
        match rest with
        | 'j' :: 's' :: 'o' :: 'n' :: r => r
        | _ => rest
      match rest2 with
      | '\n' :: r => r
      | _ => rest2
    else cs
  | _ => cs

/-- Model of `.replace(/\n?```$/, '')`: if the text ends with three backticks,
drop them together with one preceding newline. -/
def stripTrailFence (cs : List Char) : List Char :=
  match cs.reverse with
  | c1 :: c2 :: c3 :: rest =>
    if c1 == bq && c2 == bq && c3 == bq then
      match rest with
      | '\n' :: r => r.reverse
      | _ => rest.reverse
    else cs
  | _ => cs

/-- The text preprocessing `reviewWithAI` applies before `JSON.parse`:
trim; when the trimmed text starts with a code fence, strip the leading
fence marker and then the trailing one. -/
def preprocessResponse (raw : String) : List Char :=
  let rawText := jsTrimList raw.data
  if startsWithFence rawText then stripTrailFence (stripLeadFence rawText) else rawText

def approvedKey : String := "approved"

def upsertApproved : List (String × Json) → List (String × Json)
  | [] => [(approvedKey, Json.null)]
  | (k, v) :: fs =>
    if k == approvedKey then (k, Json.null) :: fs else (k, v) :: upsertApproved fs

/-- Model of the JS spread `{ ...f, approved: null }` applied to each
record: for an object, every property is kept in order and `approved` is
overwritten in place (or appended when absent).  A non-object record is
modelled as producing an object holding only `approved` — the spread of a
JS primitive contributes no properties (index properties of spread
arrays/strings are not modelled; no claim exercises them). -/
def setApprovedNull : Json → Json
  | .obj fs => .obj (upsertApproved fs)
  | _ => .obj [(approvedKey, Json.null)]

/-- The finding normalizer of `reviewWithAI`: on parse failure it throws
(`Except.error`) with a bounded prefix of the raw text for diagnosis; a
decoded non-array is rejected; a decoded array is accepted with
`approved` forced to `null` on every record. -/
def normalizeFindings (raw : String) : Except String (List Json) :=
  match parseJson (preprocessResponse raw) with
  | none =>
    .error (("Failed to parse AI response as JSON:\n") ++
      String.mk ((jsTrimList raw.data).take 500))
  | some (.arr xs) => .ok (xs.map setApprovedNull)
  | some _ => .error ("AI response is not an array of findings")

/-! ### Finding-shaped records (for the round-trip claim) -/

def lookupField : List (String × Json) → String → Option Json
  | [], _ => none
  | (k, v) :: fs, key => if k == key then some v else lookupField fs key

def isIntJ : Json → Bool
  | .num _ => true
  | _ => false

def isStrJ : Json → Bool
  | .str _ => true
  | _ => false

def isSevJ : Json → Bool
  | .str s => s == "critical" || s == "warning" || s == "suggestion"
  | _ => false

def hasField (fs : List (String × Json)) (key : String) (p : Json → Bool) : Bool :=
  match lookupField fs key with
  | some v => p v
  | none => false

/-- A record carrying all non-optional Finding fields with well-typed
values (`src/lib/types.ts`, `ReviewFinding`), with distinct keys as every
JS object has. -/
def isFindingShaped : Json → Bool
  | .obj fs =>
    decide ((fs.map Prod.fst).Nodup) &&
    hasField fs ("id") isIntJ && hasField fs ("severity") isSevJ &&
    hasField fs ("confidence") isIntJ && hasField fs ("title") isStrJ &&
    hasField fs ("file") isStrJ && hasField fs ("line") isIntJ &&
    hasField fs ("why") isStrJ && hasField fs ("body") isStrJ
  | _ => false

/-! ### Behaviour of the preprocessing on serialized arrays -/

inductive FenceWrap where
  | bare : FenceWrap
  | fenced : FenceWrap
  | fencedJson : FenceWrap

/-- Surrounding markdown code-fence markup, as the model may emit it. -/
def wrapFence : FenceWrap → List Char → List Char
  | .bare, cs => cs
  | .fenced, cs => bq :: bq :: bq :: '\n' :: (cs ++ ('\n' :: bq :: bq :: bq :: []))
  | .fencedJson, cs =>
    bq :: bq :: bq :: 'j' :: 's' :: 'o' :: 'n' :: '\n' :: (cs ++ ('\n' :: bq :: bq :: bq :: []))

theorem jsTrimList_id (c d : Char) (mid : List Char) (hc : isJsTrimWs c = false)
    (hd : isJsTrimWs d = false) :
    jsTrimList (c :: (mid ++ [d])) = c :: (mid ++ [d]) := by
  unfold jsTrimList
  rw [List.dropWhile_cons]
  simp only [hc, Bool.false_eq_true, if_false]
  rw [show (c :: (mid ++ [d])).reverse = d :: (mid.reverse ++ [c]) from by simp]
  rw [List.dropWhile_cons]
  simp only [hd, Bool.false_eq_true, if_false]
  simp

theorem renderArr_shape (l : List Json) :
    ∃ mid, renderJson (.arr l) = '[' :: (mid ++ [']']) := by
  cases l with
  | nil =>
    exact ⟨[], by simp [renderJson]⟩
  | cons x xs =>
    refine ⟨renderJson x ++ renderElemsTail xs, ?_⟩
    rw [show renderJson (.arr (x :: xs)) =
        '[' :: (renderJson x ++ renderElemsTail xs ++ [']']) from by simp [renderJson]]

theorem startsWithFence_false (c : Char) (t : List Char) (h : (c == bq) = false) :
    startsWithFence (c :: t) = false := by
  cases t with
  | nil => rfl
  | cons c2 t2 =>
    cases t2 with
    | nil => rfl
    | cons c3 t3 =>
      show (c == bq && c2 == bq && c3 == bq) = false
      rw [h, Bool.false_and, Bool.false_and]

theorem startsWithFence_bq (t : List Char) : startsWithFence (bq :: bq :: bq :: t) = true := rfl

theorem stripLead_fenced (t : List Char) :
    stripLeadFence (bq :: bq :: bq :: '\n' :: t) = t := rfl

theorem stripLead_fencedJson (t : List Char) :
    stripLeadFence (bq :: bq :: bq :: 'j' :: 's' :: 'o' :: 'n' :: '\n' :: t) = t := rfl

theorem stripTrail_newline (r : List Char) :
    stripTrailFence (r ++ ('\n' :: bq :: bq :: bq :: [])) = r := by
  unfold stripTrailFence
  rw [show (r ++ ('\n' :: bq :: bq :: bq :: [])).reverse =
      bq :: bq :: bq :: '\n' :: r.reverse from by simp]
  show (if bq == bq && bq == bq && bq == bq then r.reverse.reverse
    else r ++ ('\n' :: bq :: bq :: bq :: [])) = r
  rw [if_pos (by decide)]
  simp

theorem preprocessResponse_eq (raw : String) :
    preprocessResponse raw =
      (if startsWithFence (jsTrimList raw.data) then
        stripTrailFence (stripLeadFence (jsTrimList raw.data))
      else jsTrimList raw.data) := rfl

theorem preprocess_wrap (l : List Json) (w : FenceWrap) :
    preprocessResponse (String.mk (wrapFence w (renderJson (.arr l)))) =
      renderJson (.arr l) := by
  obtain ⟨mid, hsh⟩ := renderArr_shape l
  cases w with
  | bare =>
    rw [preprocessResponse_eq,
      show (String.mk (wrapFence .bare (renderJson (.arr l)))).data = renderJson (.arr l)
        from rfl]
    rw [hsh, jsTrimList_id _ _ _ (by decide) (by decide),
      startsWithFence_false '[' _ (by decide)]
    simp
  | fenced =>
    rw [preprocessResponse_eq,
      show (String.mk (wrapFence .fenced (renderJson (.arr l)))).data =
        bq :: bq :: bq :: '\n' :: (renderJson (.arr l) ++ ('\n' :: bq :: bq :: bq :: []))
        from rfl]
    rw [show bq :: bq :: bq :: '\n' :: (renderJson (.arr l) ++ ('\n' :: bq :: bq :: bq :: [])) =
      bq :: ((bq :: bq :: '\n' :: (renderJson (.arr l) ++ ('\n' :: bq :: bq :: []))) ++ [bq])
      from by simp]
    rw [jsTrimList_id _ _ _ (by decide) (by decide)]
    rw [show bq :: ((bq :: bq :: '\n' :: (renderJson (.arr l) ++ ('\n' :: bq :: bq :: []))) ++
        [bq]) =
      bq :: bq :: bq :: '\n' :: (renderJson (.arr l) ++ ('\n' :: bq :: bq :: bq :: []))
      from by simp]
    rw [startsWithFence_bq, if_pos rfl, stripLead_fenced, stripTrail_newline]
  | fencedJson =>
    rw [preprocessResponse_eq,
      show (String.mk (wrapFence .fencedJson (renderJson (.arr l)))).data =
        bq :: bq :: bq :: 'j' :: 's' :: 'o' :: 'n' :: '\n' ::
          (renderJson (.arr l) ++ ('\n' :: bq :: bq :: bq :: [])) from rfl]
    rw [show bq :: bq :: bq :: 'j' :: 's' :: 'o' :: 'n' :: '\n' ::
        (renderJson (.arr l) ++ ('\n' :: bq :: bq :: bq :: [])) =
      bq :: ((bq :: bq :: 'j' :: 's' :: 'o' :: 'n' :: '\n' ::
        (renderJson (.arr l) ++ ('\n' :: bq :: bq :: []))) ++ [bq]) from by simp]
    rw [jsTrimList_id _ _ _ (by decide) (by decide)]
    rw [show bq :: ((bq :: bq :: 'j' :: 's' :: 'o' :: 'n' :: '\n' ::
        (renderJson (.arr l) ++ ('\n' :: bq :: bq :: []))) ++ [bq]) =
      bq :: bq :: bq :: 'j' :: 's' :: 'o' :: 'n' :: '\n' ::
        (renderJson (.arr l) ++ ('\n' :: bq :: bq :: bq :: [])) from by simp]
    rw [startsWithFence_bq, if_pos rfl, stripLead_fencedJson, stripTrail_newline]

/-! ## Claims about the normalizer (C6, C2) -/

/-- Claim C6: normalization round-trips — serializing any array of valid
Finding-shaped objects to JSON text, optionally wrapped in markdown
code-fence markup, and passing it through the normalizer yields the same
array in the same order, identical in every field except `approved`,
which is forced to the unknown state (`null`) in every element regardless
of the value the model emitted. -/
theorem c6_normalize_roundtrip (fs : List Json) (w : FenceWrap)
    (_hv : ∀ v ∈ fs, isFindingShaped v = true) :
    normalizeFindings (String.mk (wrapFence w (renderJson (.arr fs)))) =
      .ok (fs.map setApprovedNull) := by
  unfold normalizeFindings
  rw [preprocess_wrap fs w, parseJson_render (.arr fs)]

def c6SampleFindings : List Json :=
  [Json.obj [(("id" : String), Json.num 1), (("severity" : String), Json.str ("critical")),
    (("confidence" : String), Json.num 95), (("title" : String), Json.str ("X")),
    (("file" : String), Json.str ("a.ts")), (("line" : String), Json.num 3),
    (("why" : String), Json.str ("Y")),
    (("body" : String), Json.str ("Z")),
    (("approved" : String), Json.bool true)]]

theorem c6_normalize_roundtrip_witness :
    (∀ v ∈ c6SampleFindings, isFindingShaped v = true) ∧
    normalizeFindings (String.mk (wrapFence .fencedJson (renderJson (.arr c6SampleFindings)))) =
      .ok (c6SampleFindings.map setApprovedNull) :=
  ⟨by decide, c6_normalize_roundtrip c6SampleFindings .fencedJson (by decide)⟩

/-- Claim C2 counterexample: the model response `[{}]` decodes to an array
whose single record lacks every non-optional Finding field (in particular
`id`), yet normalization accepts the batch — it returns the findings list
(with `approved` forced to `null`) rather than an error.  This refutes
the claim that such a batch is rejected fail-closed. -/
theorem c2_counterexample :
    parseJson (preprocessResponse ("[\x7b\x7d]")) = some (Json.arr [Json.obj []]) ∧
    lookupField [] ("id") = none ∧
    normalizeFindings ("[\x7b\x7d]") =
      .ok [Json.obj [(("approved" : String), Json.null)]] ∧
    (∀ e, normalizeFindings ("[\x7b\x7d]") ≠ .error e) := by
  refine ⟨rfl, rfl, rfl, fun e h => ?_⟩
  rw [show normalizeFindings ("[\x7b\x7d]") =
      .ok [Json.obj [(("approved" : String), Json.null)]] from rfl] at h
  exact Except.noConfusion h

/-- Claim C2 (amended): the normalizer rejects with an error exactly the
responses whose preprocessed text fails to parse as JSON or decodes to a
non-array; every decoded array — including one whose records lack
non-optional Finding fields — is accepted, with each record's `approved`
forced to `null`.  (Per-record required-field validation exists only for
ticket content, not for findings.) -/
theorem c2_normalizer_behavior :
    (∀ raw xs, parseJson (preprocessResponse raw) = some (Json.arr xs) →
      normalizeFindings raw = .ok (xs.map setApprovedNull)) ∧
    (∀ raw, parseJson (preprocessResponse raw) = none →
      normalizeFindings raw = .error (("Failed to parse AI response as JSON:\n") ++
        String.mk ((jsTrimList raw.data).take 500))) ∧
    (∀ raw v, parseJson (preprocessResponse raw) = some v → (∀ xs, v ≠ Json.arr xs) →
      normalizeFindings raw = .error ("AI response is not an array of findings")) := by
  refine ⟨?_, ?_, ?_⟩
  · intro raw xs h
    unfold normalizeFindings
    rw [h]
  · intro raw h
    unfold normalizeFindings
    rw [h]
  · intro raw v h hv
    unfold normalizeFindings
    rw [h]
    cases v with
    | arr xs => exact absurd rfl (hv xs)
    | null => rfl
    | bool b => rfl
    | num i => rfl
    | str s => rfl
    | obj fs => rfl

theorem c2_normalizer_behavior_witness :
    parseJson (preprocessResponse ("[1]")) = some (Json.arr [Json.num 1]) ∧
    normalizeFindings ("[1]") = .ok ([Json.num 1].map setApprovedNull) :=
  ⟨rfl, c2_normalizer_behavior.1 ("[1]") [Json.num 1] rfl⟩

/-! ## Review data model (`src/lib/types.ts`) -/

inductive Severity where
  | critical : Severity
  | warning : Severity
  | suggestion : Severity
deriving DecidableEq

/-- Structure `ReviewFinding` from `src/lib/types.ts`; `approved : boolean | null` is
`Option Bool` (`none` = JS `null`, the unknown state), the optional
`posted?` flag is also an `Option`. -/
structure ReviewFinding where
  id : Int
  severity : Severity
  confidence : Int
  title : String
  file : String
  line : Int
  why : String
  body : String
  approved : Option Bool
  posted : Option Bool := none
deriving DecidableEq

/-- Structure `ReviewFile` from `src/lib/types.ts`. -/
structure ReviewFile where
  pr : Nat
  repo : String
  baseBranch : String
  headSha : String
  reviewedAt : String
  summary : String
  findings : List ReviewFinding
deriving DecidableEq

/-- Table `SEVERITY_ORDER` from `src/commands/review.ts`
(`{ critical: 0, warning: 1, suggestion: 2 }`; the `?? 99` fallback in the
comparator is unreachable for the typed enum). -/
def sevRank : Severity → Nat
  | .critical => 0
  | .warning => 1
  | .suggestion => 2

/-- The sort `findings.sort((a, b) => SEVERITY_ORDER[a.severity] -
SEVERITY_ORDER[b.severity])`.  ES2019 requires `Array.prototype.sort` to
be stable, and with this consistent comparator the result is the unique
sorted stable permutation — which this insertion sort computes. -/
def sevInsert (f : ReviewFinding) : List ReviewFinding → List ReviewFinding
  | [] => [f]
  | g :: gs =>
    if sevRank f.severity ≤ sevRank g.severity then f :: g :: gs
    else g :: sevInsert f gs

def sortFindings : List ReviewFinding → List ReviewFinding
  | [] => []
  | f :: fs => sevInsert f (sortFindings fs)

theorem mem_sevInsert (b f : ReviewFinding) (l : List ReviewFinding) :
    b ∈ sevInsert f l ↔ b = f ∨ b ∈ l := by
  induction l with
  | nil => simp [sevInsert]
  | cons g gs ih =>
    unfold sevInsert
    split_ifs with h
    · simp
    · simp only [List.mem_cons, ih]
      tauto

theorem pairwise_sevInsert (f : ReviewFinding) (l : List ReviewFinding)
    (hl : l.Pairwise (fun a b => sevRank a.severity ≤ sevRank b.severity)) :
    (sevInsert f l).Pairwise (fun a b => sevRank a.severity ≤ sevRank b.severity) := by
  induction l with
  | nil => simp [sevInsert]
  | cons g gs ih =>
    rw [List.pairwise_cons] at hl
    obtain ⟨hg, hgs⟩ := hl
    unfold sevInsert
    split_ifs with h
    · rw [List.pairwise_cons]
      refine ⟨?_, List.pairwise_cons.mpr ⟨hg, hgs⟩⟩
      intro b hb
      rcases List.mem_cons.mp hb with rfl | hb
      · exact h
      · exact Nat.le_trans h (hg b hb)
    · rw [List.pairwise_cons]
      refine ⟨?_, ih hgs⟩
      intro b hb
      rcases (mem_sevInsert b f gs).mp hb with rfl | hb
      · omega
      · exact hg b hb

theorem sorted_sortFindings (l : List ReviewFinding) :
    (sortFindings l).Pairwise (fun a b => sevRank a.severity ≤ sevRank b.severity) := by
  induction l with
  | nil => simp [sortFindings]
  | cons f fs ih => exact pairwise_sevInsert f (sortFindings fs) ih

theorem filter_sevInsert_pos (f : ReviewFinding) (l : List ReviewFinding) (s : Severity)
    (hf : f.severity = s) :
    (sevInsert f l).filter (fun g => g.severity == s) =
      f :: l.filter (fun g => g.severity == s) := by
  induction l with
  | nil => simp [sevInsert, List.filter, hf]
  | cons g gs ih =>
    unfold sevInsert
    split_ifs with h
    · simp [List.filter_cons, hf]
    · have hg : (g.severity == s) = false := by
        rw [beq_eq_false_iff_ne]
        intro hgs
        rw [hf, ← hgs] at h
        omega
      simp only [List.filter_cons, hg, ih]
      simp

theorem filter_sevInsert_neg (f : ReviewFinding) (l : List ReviewFinding) (s : Severity)
    (hf : ¬ f.severity = s) :
    (sevInsert f l).filter (fun g => g.severity == s) =
      l.filter (fun g => g.severity == s) := by
  have hfb : (f.severity == s) = false := by
    rw [beq_eq_false_iff_ne]
    exact hf
  induction l with
  | nil => simp [sevInsert, List.filter, hfb]
  | cons g gs ih =>
    unfold sevInsert
    split_ifs with h
    · simp only [List.filter_cons, hfb]
      simp
    · simp only [List.filter_cons, ih]

theorem perm_sevInsert (f : ReviewFinding) (l : List ReviewFinding) :
    (sevInsert f l).Perm (f :: l) := by
  induction l with
  | nil => simp [sevInsert]
  | cons g gs ih =>
    unfold sevInsert
    split_ifs with h
    · exact List.Perm.refl _
    · exact ((ih.cons g).trans (List.Perm.swap f g gs))

/-- Claim C5: for every sequence of Findings, the sort applied before
reporting and approval is stable and total with the fixed severity order —
in the output, positions are ordered by severity rank (every critical
precedes every warning, every warning precedes every suggestion), any two
findings of equal severity retain their original relative order (the
subsequence of each severity is unchanged), and the output is a
permutation of the input. -/
theorem c5_sort_stable_total (l : List ReviewFinding) :
    (∀ i j (hi : i < (sortFindings l).length) (hj : j < (sortFindings l).length), i < j →
      sevRank ((sortFindings l).get ⟨i, hi⟩).severity ≤
        sevRank ((sortFindings l).get ⟨j, hj⟩).severity) ∧
    (∀ s : Severity, (sortFindings l).filter (fun f => f.severity == s) =
      l.filter (fun f => f.severity == s)) ∧
    (sortFindings l).Perm l := by
  refine ⟨?_, ?_, ?_⟩
  · have hs := sorted_sortFindings l
    rw [List.pairwise_iff_get] at hs
    intro i j hi hj hij
    exact hs ⟨i, hi⟩ ⟨j, hj⟩ hij
  · intro s
    induction l with
    | nil => simp [sortFindings]
    | cons f fs ih =>
      unfold sortFindings
      by_cases hf : f.severity = s
      · rw [filter_sevInsert_pos f _ s hf, ih, List.filter_cons,
          if_pos (by simp [hf])]
      · rw [filter_sevInsert_neg f _ s hf, ih, List.filter_cons,
          if_neg (by simp [hf])]
  · induction l with
    | nil => simp [sortFindings]
    | cons f fs ih =>
      unfold sortFindings
      exact (perm_sevInsert f (sortFindings fs)).trans (ih.cons f)

/-! ## Delivery engine (`postReview`, `src/lib/github.ts`) -/

def containsSub : List Char → List Char → Bool
  | [], needle => needle.isEmpty
  | c :: t, needle => needle.isPrefixOf (c :: t) || containsSub t needle

/-- Model of `msg.includes('pull_request_review_thread') ||
msg.includes('Validation Failed')` — the anchor-validation signature that
triggers the flat-comment fallback. -/
def anchorSig (m : String) : Bool :=
  containsSub m.data (("pull_request_review_thread").data) ||
  containsSub m.data (("Validation Failed").data)

/-- Table `SEVERITY_LABELS` from `src/lib/github.ts`. -/
def severityLabel : Severity → String
  | .critical => "🔴 **[Critical]**"
  | .warning => "🟡 **[Warning]**"
  | .suggestion => "🔵 **[Suggestion]**"

/-- Model of `f.severity.charAt(0).toUpperCase() + f.severity.slice(1)`, computed
on the enum. -/
def sevCapitalized : Severity → String
  | .critical => "Critical"
  | .warning => "Warning"
  | .suggestion => "Suggestion"

def formatCommentBody (f : ReviewFinding) : String :=
  severityLabel f.severity ++ " " ++ f.title ++ " (Confidence: " ++ toString f.confidence ++
    "/100)\n\n" ++ f.body

def summaryRow (f : ReviewFinding) : String :=
  "| " ++ toString f.id ++ " | " ++ sevCapitalized f.severity ++ " | `" ++ f.file ++ ":" ++
    toString f.line ++ "` | " ++ f.title ++ " | " ++ toString f.confidence ++ "/100 |"

def formatSummaryBody (review : ReviewFile) (approved : List ReviewFinding) : String :=
  if approved.isEmpty then
    String.intercalate ("\n") [("## Code Review Summary"), (""), review.summary, (""),
      ("No issues to report. Looks good!")]
  else
    String.intercalate ("\n")
      ([("## Code Review Summary"), (""), review.summary, (""),
        ("| # | Severity | File | Issue | Confidence |"),
        ("|---|----------|------|-------|------------|")] ++
       approved.map summaryRow ++ [(""), ("See inline comments for details.")])

/-- Host-visible effects and process outcome.  `Outcome.ok` is a normal
return (exit code 0); `Outcome.fatal c` is `process.exit(c)`. -/
inductive Outcome where
  | ok : Outcome
  | fatal : Nat → Outcome
deriving DecidableEq

structure InlineComment where
  path : String
  line : Int
  side : String
  body : String
deriving DecidableEq

inductive Effect where
  | aiCall (diff guidelines changedFiles : String) : Effect
  | writeRecord (path : String) (record : ReviewFile) : Effect
  | submitReview (repo : String) (pr : Nat) (body : String)
      (comments : List InlineComment) : Effect
  | postComment (repo : String) (pr : Nat) (body : String) : Effect
deriving DecidableEq

def Effect.isHostMutating : Effect → Bool
  | .submitReview _ _ _ _ => true
  | .postComment _ _ _ => true
  | _ => false

def Effect.isRecordWrite : Effect → Bool
  | .writeRecord _ _ => true
  | _ => false

def Effect.isAiCall : Effect → Bool
  | .aiCall _ _ _ => true
  | _ => false

/-- Oracle for the GitHub CLI calls `postReview` makes.  `submitResult`
is the primary `gh api .../reviews` call (`none` = success, `some msg` =
it throws with that message).  The fallback `gh pr comment` failures are
carried too so claims can quantify over them; in the source they are
caught and only logged, so they provably never change the trace or the
outcome. -/
structure GhWorld where
  submitResult : Option String
  summaryCommentFails : Bool
  commentFails : Nat → Bool

def inlineCommentOf (f : ReviewFinding) : InlineComment :=
  ⟨f.file, f.line, ("RIGHT"), formatCommentBody f⟩

def fallbackCommentBody (f : ReviewFinding) : String :=
  formatCommentBody f ++ "\n\n> File: `" ++ f.file ++ ":" ++ toString f.line ++ "`"

/-- Model of `postReview(review, approvedFindings)`: one structured review
submission; on an anchor-signature failure, a flat summary comment and
one flat comment per approved finding, each attempt independent and
non-fatal; any other submission failure is `process.exit(1)`. -/
def postReviewM (w : GhWorld) (review : ReviewFile) (approvedFindings : List ReviewFinding) :
    List Effect × Outcome :=
  match w.submitResult with
  | none =>
    ([Effect.submitReview review.repo review.pr (formatSummaryBody review approvedFindings)
        (approvedFindings.map inlineCommentOf)], .ok)
  | some msg =>
    if anchorSig msg then
      (Effect.submitReview review.repo review.pr (formatSummaryBody review approvedFindings)
          (approvedFindings.map inlineCommentOf) ::
        Effect.postComment review.repo review.pr (formatSummaryBody review approvedFindings) ::
        approvedFindings.map
          (fun f => Effect.postComment review.repo review.pr (fallbackCommentBody f)),
       .ok)
    else
      ([Effect.submitReview review.repo review.pr (formatSummaryBody review approvedFindings)
          (approvedFindings.map inlineCommentOf)], .fatal 1)

/-! ## Claims about delivery (C3, C4) -/

/-- Claim C3: when the primary structured submission fails with a message
matching the anchor-validation signature, delivery switches to the
fallback — it posts the synthesized summary as one flat comment, then
attempts one flat comment per approved finding, in order.  The trace is
the same for every pattern of per-item failures (the world's
`summaryCommentFails` and `commentFails` are unconstrained), so a failure
posting finding i's comment never prevents the comment for any later
finding j from being attempted: every finding's comment attempt is in the
trace, and the outcome is a normal return. -/
theorem c3_fallback_best_effort (w : GhWorld) (review : ReviewFile)
    (fs : List ReviewFinding) (m : String) (h1 : w.submitResult = some m)
    (h2 : anchorSig m = true) :
    postReviewM w review fs =
      (Effect.submitReview review.repo review.pr (formatSummaryBody review fs)
          (fs.map inlineCommentOf) ::
        Effect.postComment review.repo review.pr (formatSummaryBody review fs) ::
        fs.map (fun f => Effect.postComment review.repo review.pr (fallbackCommentBody f)),
       Outcome.ok) ∧
    (∀ i (hi : i < fs.length),
      Effect.postComment review.repo review.pr (fallbackCommentBody (fs.get ⟨i, hi⟩)) ∈
        (postReviewM w review fs).1) := by
  have heq : postReviewM w review fs =
      (Effect.submitReview review.repo review.pr (formatSummaryBody review fs)
          (fs.map inlineCommentOf) ::
        Effect.postComment review.repo review.pr (formatSummaryBody review fs) ::
        fs.map (fun f => Effect.postComment review.repo review.pr (fallbackCommentBody f)),
       Outcome.ok) := by
    unfold postReviewM
    rw [h1]
    simp [h2]
  refine ⟨heq, ?_⟩
  intro i hi
  rw [heq]
  apply List.mem_cons_of_mem
  apply List.mem_cons_of_mem
  exact List.mem_map_of_mem _ (fs.get_mem i hi)

def sampleFinding1 : ReviewFinding :=
  ⟨1, .critical, 95, ("X"), ("a.ts"), 3, ("Y"), ("Z"), none, none⟩

def sampleFinding2 : ReviewFinding :=
  ⟨2, .warning, 80, ("W"), ("b.ts"), 5, ("V"), ("U"), none, none⟩

def sampleReviewFile : ReviewFile :=
  ⟨42, ("o/r"), ("main"), ("abc"), ("now"), ("s"), [sampleFinding1, sampleFinding2]⟩

def failingGh : GhWorld := ⟨some ("Validation Failed"), true, fun _ => true⟩

theorem c3_fallback_best_effort_witness :
    failingGh.submitResult = some ("Validation Failed") ∧
    anchorSig ("Validation Failed") = true ∧
    (∀ i (hi : i < [sampleFinding1, sampleFinding2].length),
      Effect.postComment sampleReviewFile.repo sampleReviewFile.pr
          (fallbackCommentBody ([sampleFinding1, sampleFinding2].get ⟨i, hi⟩)) ∈
        (postReviewM failingGh sampleReviewFile [sampleFinding1, sampleFinding2]).1) :=
  ⟨rfl, by decide,
    (c3_fallback_best_effort failingGh sampleReviewFile [sampleFinding1, sampleFinding2]
      ("Validation Failed") rfl (by decide)).2⟩

/-- Claim C4 counterexample: a fatal delivery outcome is not equivalent
to "both strategies exhausted".  With a primary failure matching the
anchor signature and every fallback comment failing too (both strategies
failed), `postReview` still returns normally; and with a primary failure
not matching the signature, it exits fatally without a single fallback
comment being attempted. -/
theorem c4_counterexample :
    (postReviewM (GhWorld.mk (some ("Validation Failed")) true (fun _ => true))
        sampleReviewFile [sampleFinding1, sampleFinding2]).2 = Outcome.ok ∧
    (postReviewM (GhWorld.mk (some ("boom")) false (fun _ => false))
        sampleReviewFile [sampleFinding1, sampleFinding2]).2 = Outcome.fatal 1 ∧
    (∀ e ∈ (postReviewM (GhWorld.mk (some ("boom")) false (fun _ => false))
        sampleReviewFile [sampleFinding1, sampleFinding2]).1,
      (match e with
        | Effect.postComment _ _ _ => False
        | _ => True)) := by
  refine ⟨by decide, by decide, ?_⟩
  intro e he
  have htr : (postReviewM (GhWorld.mk (some ("boom")) false (fun _ => false))
      sampleReviewFile [sampleFinding1, sampleFinding2]).1 =
      [Effect.submitReview sampleReviewFile.repo sampleReviewFile.pr
        (formatSummaryBody sampleReviewFile [sampleFinding1, sampleFinding2])
        ([sampleFinding1, sampleFinding2].map inlineCommentOf)] := by
    unfold postReviewM
    rw [show (GhWorld.mk (some ("boom")) false (fun _ => false)).submitResult =
        some ("boom") from rfl]
    simp [show anchorSig ("boom") = false from by decide]
  rw [htr] at he
  simp only [List.mem_singleton] at he
  subst he
  trivial

/-- Claim C4 (amended): a fatal delivery outcome occurs exactly when the
primary structured submission fails with an error message that does not
match the anchor-validation signature.  When the fallback is engaged its
per-item failures are reported but never fatal, even if the summary
comment and every finding comment fail. -/
theorem c4_fatal_iff (w : GhWorld) (review : ReviewFile) (fs : List ReviewFinding) :
    (postReviewM w review fs).2 = Outcome.fatal 1 ↔
      (∃ m, w.submitResult = some m ∧ anchorSig m = false) := by
  cases hs : w.submitResult with
  | none => simp [postReviewM, hs]
  | some m =>
    by_cases ha : anchorSig m = true
    · simp [postReviewM, hs, ha]
    · have ha' : anchorSig m = false := by
        simpa using ha
      simp [postReviewM, hs, ha']

/-! ## Review orchestrator (`registerReviewCommand`, `src/commands/review.ts`)

The command is modelled as a pure function from a world of oracle results
(configuration, PR resolution, diff, AI result, operator decisions,
GitHub call results) to the list of performed side effects plus the
process outcome.  Read-only host queries (PR lookup, diff fetch) are
folded into the world since no claim mentions them. -/

/-- The operator's choice at one finding's prompt in `interactiveApproval`:
approve (`approved = true`), skip (`approved = false`), or edit (the
prompt returns the operator's final text, defaulting to the current body;
`approved` is implicitly set to true). -/
inductive Decision where
  | approve : Decision
  | skip : Decision
  | edit (newBody : String) : Decision

def applyDecision (d : Decision) (f : ReviewFinding) : ReviewFinding :=
  match d with
  | .approve => { f with approved := some true }
  | .skip => { f with approved := some false }
  | .edit newBody => { f with body := newBody, approved := some true }

def applyDecisions (ds : Nat → Decision) : Nat → List ReviewFinding → List ReviewFinding
  | _, [] => []
  | i, f :: fs => applyDecision (ds i) f :: applyDecisions ds (i + 1) fs

/-- Model of `interactiveApproval(findings)`: strictly sequential, one decision per
finding, no batch actions and no undo. -/
def interactiveApproval (ds : Nat → Decision) (fs : List ReviewFinding) :
    List ReviewFinding :=
  applyDecisions ds 0 fs

/-- The result of `resolvePR` (`number`, `baseRefName`, `headRefOid`,
`detectRepoFromGit() || ''`). -/
structure PRRef where
  number : Nat
  baseBranch : String
  headSha : String
  repo : String
deriving DecidableEq

/-- Oracle world for one `review` invocation. -/
structure ReviewWorld where
  hasAnthropicKey : Bool
  resolvedPR : Option PRRef
  guidelines : String
  diff : String
  changedFiles : String
  now : String
  aiResult : Except String (List ReviewFinding)
  postFlag : Bool
  decisions : Nat → Decision
  confirmPost : Bool
  configRepo : Option String
  gitRepo : Option String
  gh : GhWorld

/-- JS `a || b` on strings: the empty string is the only falsy string. -/
def jsOrStr (a b : String) : String := if a.isEmpty then b else a

def optStr : Option String → String
  | none => ""
  | some s => s

def maxDiffChars : Nat := 100000

/-- Diff truncation before the AI call (character count rather than
UTF-16 units). -/
def truncateDiff (diff : String) : String :=
  if diff.length > maxDiffChars then
    String.mk (diff.data.take maxDiffChars) ++ "\n\n... (diff truncated due to size)"
  else diff

def countSev (s : Severity) (fs : List ReviewFinding) : Nat :=
  (fs.filter (fun f => f.severity == s)).length

def mkSummary (fs : List ReviewFinding) : String :=
  "Found " ++ toString fs.length ++ " issues (" ++ toString (countSev .critical fs) ++
    " critical, " ++ toString (countSev .warning fs) ++ " warning, " ++
    toString (countSev .suggestion fs) ++ " suggestion)"

/-- Model of `join(process.cwd(), '.coder', 'reviews', 'pr-<n>-review.json')`,
relative to the working directory. -/
def reviewPath (pr : Nat) : String :=
  ".coder/reviews/pr-" ++ toString pr ++ "-review.json"

def aiEvent (w : ReviewWorld) : Effect :=
  Effect.aiCall (truncateDiff w.diff) w.guidelines w.changedFiles

def approvedFilter (fs : List ReviewFinding) : List ReviewFinding :=
  fs.filter (fun f => f.approved == some true)

/-- Model of `pr.repo || config.githubRepo || detectRepoFromGit() || ''`. -/
def chosenRepo (w : ReviewWorld) (pr : PRRef) : String :=
  jsOrStr pr.repo (jsOrStr (optStr w.configRepo) (optStr w.gitRepo))

/-- The `ReviewFile` the command persists: all findings (sorted, with the
operator's decisions applied — approved, skipped and edited alike), the
summary built from the pre-approval counts. -/
def reviewRecord (w : ReviewWorld) (pr : PRRef) (findings0 : List ReviewFinding) :
    ReviewFile :=
  ⟨pr.number, chosenRepo w pr, pr.baseBranch, pr.headSha, w.now,
    mkSummary (sortFindings findings0), interactiveApproval w.decisions (sortFindings findings0)⟩

/-- The `review` command action, phase by phase: API-key check, PR
resolution, context gathering with the empty-diff short circuit, the AI
call, the no-findings short circuit, severity sort, the `--post` gate,
the approval session, the zero-approved short circuit, the final
confirmation, the repo check, then the durable record write followed by
delivery. -/
def reviewCommand (w : ReviewWorld) : List Effect × Outcome :=
  if w.hasAnthropicKey = false then ([], .fatal 1)
  else
    match w.resolvedPR with
    | none => ([], .fatal 1)
    | some pr =>
      if (jsTrimList w.diff.data).isEmpty then ([], .ok)
      else
        match w.aiResult with
        | .error _ => ([aiEvent w], .fatal 1)
        | .ok findings0 =>
          if findings0.isEmpty then ([aiEvent w], .ok)
          else if w.postFlag = false then ([aiEvent w], .ok)
          else if (approvedFilter (interactiveApproval w.decisions
              (sortFindings findings0))).isEmpty then ([aiEvent w], .ok)
          else if w.confirmPost = false then ([aiEvent w], .ok)
          else if (chosenRepo w pr).isEmpty then ([aiEvent w], .fatal 1)
          else
            (aiEvent w ::
              Effect.writeRecord (reviewPath pr.number) (reviewRecord w pr findings0) ::
              (postReviewM w.gh (reviewRecord w pr findings0)
                (approvedFilter (interactiveApproval w.decisions
                  (sortFindings findings0)))).1,
             (postReviewM w.gh (reviewRecord w pr findings0)
                (approvedFilter (interactiveApproval w.decisions
                  (sortFindings findings0)))).2)

/-- Every trace either contains no host-mutating effect at all, or starts
with the AI call followed immediately by the durable record write. -/
theorem reviewCommand_shape (w : ReviewWorld) :
    (∀ e ∈ (reviewCommand w).1, e.isHostMutating = false) ∨
    (∃ pr fs0 tail, (reviewCommand w).1 = aiEvent w ::
      Effect.writeRecord (reviewPath pr.number) (reviewRecord w pr fs0) :: tail) := by
  unfold reviewCommand
  split
  · left
    intro e he
    simp at he
  split
  · left
    intro e he
    simp at he
  split
  · left
    intro e he
    simp at he
  split
  · left
    intro e he
    simp only [List.mem_singleton] at he
    subst he
    rfl
  split
  · left
    intro e he
    simp only [List.mem_singleton] at he
    subst he
    rfl
  split
  · left
    intro e he
    simp only [List.mem_singleton] at he
    subst he
    rfl
  split
  · left
    intro e he
    simp only [List.mem_singleton] at he
    subst he
    rfl
  split
  · left
    intro e he
    simp only [List.mem_singleton] at he
    subst he
    rfl
  split
  · left
    intro e he
    simp only [List.mem_singleton] at he
    subst he
    rfl
  right
  exact ⟨_, _, _, rfl⟩

/-! ## Claims about the orchestrator (C1, C7, C8, C9, C10) -/

/-- Claim C1: in every execution, wherever a host-mutating delivery call
occurs in the effect trace, the durable review record write
(`.coder/reviews/pr-<n>-review.json`) occurs strictly before it.  In
particular, whenever the command proceeds to posting (operator confirmed
with at least one approved finding, so that delivery is attempted), the
record is written before the first delivery call — and hence exists even
if delivery subsequently fails entirely. -/
theorem c1_record_before_delivery (w : ReviewWorld) (pre post : List Effect) (e : Effect)
    (hsplit : (reviewCommand w).1 = pre ++ e :: post)
    (hm : e.isHostMutating = true) :
    ∃ e' ∈ pre, e'.isRecordWrite = true := by
  rcases reviewCommand_shape w with hsh | ⟨pr, fs0, tail, hsh⟩
  · have hmem : e ∈ (reviewCommand w).1 := by
      rw [hsplit]
      simp
    have hf := hsh e hmem
    rw [hm] at hf
    exact Bool.noConfusion hf
  · rw [hsh] at hsplit
    cases pre with
    | nil =>
      simp only [List.nil_append, List.cons.injEq] at hsplit
      rw [← hsplit.1] at hm
      have hai : (aiEvent w).isHostMutating = false := rfl
      rw [hai] at hm
      exact Bool.noConfusion hm
    | cons p1 pre' =>
      cases pre' with
      | nil =>
        simp only [List.cons_append, List.nil_append, List.cons.injEq] at hsplit
        rw [← hsplit.2.1] at hm
        have hwr : (Effect.writeRecord (reviewPath pr.number)
            (reviewRecord w pr fs0)).isHostMutating = false := rfl
        rw [hwr] at hm
        exact Bool.noConfusion hm
      | cons p2 pre'' =>
        simp only [List.cons_append, List.cons.injEq] at hsplit
        refine ⟨p2, by simp, ?_⟩
        rw [← hsplit.2.1]
        rfl

def samplePR : PRRef := ⟨42, ("main"), ("abc"), ("o/r")⟩

def sampleGh : GhWorld := ⟨none, false, fun _ => false⟩

/-- A world in which the command proceeds all the way to posting. -/
def sampleWorld : ReviewWorld :=
  ⟨true, some samplePR, ("g"), ("x"), ("cf"), ("now"), .ok [sampleFinding1], true,
    fun _ => Decision.approve, true, none, none, sampleGh⟩

theorem c1_record_before_delivery_witness :
    ∃ e' ∈ [aiEvent sampleWorld,
      Effect.writeRecord (reviewPath samplePR.number)
        (reviewRecord sampleWorld samplePR [sampleFinding1])], e'.isRecordWrite = true :=
  c1_record_before_delivery sampleWorld
    [aiEvent sampleWorld,
      Effect.writeRecord (reviewPath samplePR.number)
        (reviewRecord sampleWorld samplePR [sampleFinding1])]
    []
    (Effect.submitReview (reviewRecord sampleWorld samplePR [sampleFinding1]).repo
      (reviewRecord sampleWorld samplePR [sampleFinding1]).pr
      (formatSummaryBody (reviewRecord sampleWorld samplePR [sampleFinding1])
        (approvedFilter (interactiveApproval sampleWorld.decisions
          (sortFindings [sampleFinding1]))))
      ((approvedFilter (interactiveApproval sampleWorld.decisions
          (sortFindings [sampleFinding1]))).map inlineCommentOf))
    rfl rfl

/-- Claim C7: when the fetched diff is empty or whitespace-only, the
review command terminates in the successful "nothing to review" state
without ever invoking the AI generation capability: the trace is empty
(zero generation calls) and the outcome is a normal return, not an
error. -/
theorem c7_empty_diff (w : ReviewWorld) (pr : PRRef) (h1 : w.hasAnthropicKey = true)
    (h2 : w.resolvedPR = some pr) (h3 : (jsTrimList w.diff.data).isEmpty = true) :
    reviewCommand w = ([], Outcome.ok) ∧
    ∀ e ∈ (reviewCommand w).1, e.isAiCall = false := by
  have hcmd : reviewCommand w = ([], Outcome.ok) := by
    simp [reviewCommand, h1, h2, h3]
  refine ⟨hcmd, ?_⟩
  rw [hcmd]
  intro e he
  simp at he

def emptyDiffWorld : ReviewWorld :=
  ⟨true, some samplePR, ("g"), (" \n "), ("cf"), ("now"), .ok [], false,
    fun _ => Decision.approve, false, none, none, sampleGh⟩

theorem c7_empty_diff_witness :
    reviewCommand emptyDiffWorld = ([], Outcome.ok) ∧
    ∀ e ∈ (reviewCommand emptyDiffWorld).1, e.isAiCall = false :=
  c7_empty_diff emptyDiffWorld samplePR rfl rfl (by decide)

/-- Claim C8: if, after the approval session, zero findings carry
`approved = true`, the review command terminates successfully without
invoking any host-mutating call: no review submission and no comment
creation is ever attempted (the trace holds only the AI call). -/
theorem c8_zero_approved (w : ReviewWorld) (pr : PRRef) (fs0 : List ReviewFinding)
    (h1 : w.hasAnthropicKey = true) (h2 : w.resolvedPR = some pr)
    (h3 : (jsTrimList w.diff.data).isEmpty = false)
    (h4 : w.aiResult = .ok fs0) (h5 : fs0.isEmpty = false) (h6 : w.postFlag = true)
    (h7 : (approvedFilter (interactiveApproval w.decisions
      (sortFindings fs0))).isEmpty = true) :
    reviewCommand w = ([aiEvent w], Outcome.ok) ∧
    ∀ e ∈ (reviewCommand w).1, e.isHostMutating = false := by
  have hcmd : reviewCommand w = ([aiEvent w], Outcome.ok) := by
    simp [reviewCommand, h1, h2, h3, h4, h5, h6, h7]
  refine ⟨hcmd, ?_⟩
  rw [hcmd]
  intro e he
  simp only [List.mem_singleton] at he
  subst he
  rfl

def skipAllWorld : ReviewWorld :=
  ⟨true, some samplePR, ("g"), ("x"), ("cf"), ("now"), .ok [sampleFinding1], true,
    fun _ => Decision.skip, true, none, none, sampleGh⟩

theorem c8_zero_approved_witness :
    reviewCommand skipAllWorld = ([aiEvent skipAllWorld], Outcome.ok) ∧
    ∀ e ∈ (reviewCommand skipAllWorld).1, e.isHostMutating = false :=
  c8_zero_approved skipAllWorld samplePR [sampleFinding1] rfl rfl (by decide) rfl rfl rfl
    (by decide)

/-- Claim C10: if the operator declines the final post-confirmation
prompt, the review command terminates successfully (a normal return,
exit code 0), with no durable review record written and no host-mutating
call made — the confirmation strictly precedes both the record write and
delivery, so cancelling leaves the host and the local reviews directory
unchanged. -/
theorem c10_cancel_leaves_unchanged (w : ReviewWorld) (pr : PRRef)
    (fs0 : List ReviewFinding)
    (h1 : w.hasAnthropicKey = true) (h2 : w.resolvedPR = some pr)
    (h3 : (jsTrimList w.diff.data).isEmpty = false)
    (h4 : w.aiResult = .ok fs0) (h5 : fs0.isEmpty = false) (h6 : w.postFlag = true)
    (h7 : (approvedFilter (interactiveApproval w.decisions
      (sortFindings fs0))).isEmpty = false)
    (h8 : w.confirmPost = false) :
    reviewCommand w = ([aiEvent w], Outcome.ok) ∧
    ∀ e ∈ (reviewCommand w).1, e.isHostMutating = false ∧ e.isRecordWrite = false := by
  have hcmd : reviewCommand w = ([aiEvent w], Outcome.ok) := by
    simp [reviewCommand, h1, h2, h3, h4, h5, h6, h7, h8]
  refine ⟨hcmd, ?_⟩
  rw [hcmd]
  intro e he
  simp only [List.mem_singleton] at he
  subst he
  exact ⟨rfl, rfl⟩

def cancelWorld : ReviewWorld :=
  ⟨true, some samplePR, ("g"), ("x"), ("cf"), ("now"), .ok [sampleFinding1], true,
    fun _ => Decision.approve, false, none, none, sampleGh⟩

theorem c10_cancel_leaves_unchanged_witness :
    reviewCommand cancelWorld = ([aiEvent cancelWorld], Outcome.ok) ∧
    ∀ e ∈ (reviewCommand cancelWorld).1,
      e.isHostMutating = false ∧ e.isRecordWrite = false :=
  c10_cancel_leaves_unchanged cancelWorld samplePR [sampleFinding1] rfl rfl (by decide) rfl
    rfl rfl (by decide) rfl

theorem applyDecisions_getElem (ds : Nat → Decision) (fs : List ReviewFinding) :
    ∀ (k i : Nat), (applyDecisions ds k fs)[i]? =
      (fs[i]?).map (fun f => applyDecision (ds (k + i)) f) := by
  induction fs with
  | nil =>
    intro k i
    simp [applyDecisions]
  | cons f fs ih =>
    intro k i
    cases i with
    | zero => simp [applyDecisions]
    | succ i =>
      simp only [applyDecisions, List.getElem?_cons_succ]
      rw [ih (k + 1) i]
      have hk : k + 1 + i = k + (i + 1) := by omega
      rw [hk]

theorem applyDecision_preserves (d : Decision) (f : ReviewFinding) :
    (applyDecision d f).id = f.id ∧ (applyDecision d f).severity = f.severity ∧
    (applyDecision d f).confidence = f.confidence ∧ (applyDecision d f).title = f.title ∧
    (applyDecision d f).file = f.file ∧ (applyDecision d f).line = f.line ∧
    (applyDecision d f).why = f.why := by
  cases d <;> simp [applyDecision]

/-- Claim C9: when the command reaches the posting phase, the persisted
review record's findings array is exactly the analysis findings (sorted),
with each finding's operator decision applied — approved, skipped and
edited alike, the edited ones carrying the operator-replaced body — while
the delivery call receives only the subset with `approved = true`.
Position by position, the persisted finding is the sorted analysis
finding with its decision applied, and a decision can change only
`approved` and `body` (id, severity, confidence, title, file, line and
why are preserved). -/
theorem c9_record_all_delivery_approved (w : ReviewWorld) (pr : PRRef)
    (fs0 : List ReviewFinding)
    (h1 : w.hasAnthropicKey = true) (h2 : w.resolvedPR = some pr)
    (h3 : (jsTrimList w.diff.data).isEmpty = false)
    (h4 : w.aiResult = .ok fs0) (h5 : fs0.isEmpty = false) (h6 : w.postFlag = true)
    (h7 : (approvedFilter (interactiveApproval w.decisions
      (sortFindings fs0))).isEmpty = false)
    (h8 : w.confirmPost = true) (h9 : (chosenRepo w pr).isEmpty = false) :
    reviewCommand w =
      (aiEvent w ::
        Effect.writeRecord (reviewPath pr.number) (reviewRecord w pr fs0) ::
        (postReviewM w.gh (reviewRecord w pr fs0)
          (approvedFilter (interactiveApproval w.decisions (sortFindings fs0)))).1,
       (postReviewM w.gh (reviewRecord w pr fs0)
          (approvedFilter (interactiveApproval w.decisions (sortFindings fs0)))).2) ∧
    (reviewRecord w pr fs0).findings = interactiveApproval w.decisions (sortFindings fs0) ∧
    (∀ i : Nat, (interactiveApproval w.decisions (sortFindings fs0))[i]? =
      ((sortFindings fs0)[i]?).map (fun f => applyDecision (w.decisions i) f)) ∧
    approvedFilter (interactiveApproval w.decisions (sortFindings fs0)) =
      (interactiveApproval w.decisions (sortFindings fs0)).filter
        (fun f => f.approved == some true) ∧
    (∀ (d : Decision) (f : ReviewFinding),
      (applyDecision d f).id = f.id ∧ (applyDecision d f).severity = f.severity ∧
      (applyDecision d f).confidence = f.confidence ∧ (applyDecision d f).title = f.title ∧
      (applyDecision d f).file = f.file ∧ (applyDecision d f).line = f.line ∧
      (applyDecision d f).why = f.why) := by
  refine ⟨?_, rfl, ?_, rfl, applyDecision_preserves⟩
  · simp [reviewCommand, h1, h2, h3, h4, h5, h6, h7, h8, h9]
  · intro i
    have := applyDecisions_getElem w.decisions (sortFindings fs0) 0 i
    simpa [interactiveApproval] using this

theorem c9_record_all_delivery_approved_witness :
    reviewCommand sampleWorld =
      (aiEvent sampleWorld ::
        Effect.writeRecord (reviewPath samplePR.number)
          (reviewRecord sampleWorld samplePR [sampleFinding1]) ::
        (postReviewM sampleWorld.gh (reviewRecord sampleWorld samplePR [sampleFinding1])
          (approvedFilter (interactiveApproval sampleWorld.decisions
            (sortFindings [sampleFinding1])))).1,
       (postReviewM sampleWorld.gh (reviewRecord sampleWorld samplePR [sampleFinding1])
          (approvedFilter (interactiveApproval sampleWorld.decisions
            (sortFindings [sampleFinding1])))).2) ∧
    (reviewRecord sampleWorld samplePR [sampleFinding1]).findings =
      interactiveApproval sampleWorld.decisions (sortFindings [sampleFinding1]) :=
  ⟨(c9_record_all_delivery_approved sampleWorld samplePR [sampleFinding1] rfl rfl (by decide)
      rfl rfl rfl (by decide) rfl (by decide)).1,
   (c9_record_all_delivery_approved sampleWorld samplePR [sampleFinding1] rfl rfl (by decide)
      rfl rfl rfl (by decide) rfl (by decide)).2.1⟩
